import Mathlib


/-! # VTableInspector: a shallow embedding of `VTableInspector.h`

The header walks the raw bytes of a polymorphic object, separating vtable
pointers from planted `ID` marker records, and prints the tables it finds.

Modelling conventions (LP64, as the header's assumption 4 and the comment
"Read 8 bytes of data" require): `sizeof(long) = sizeof(VFPTR) = 8`,
`sizeof(ID) = 16`.

* An object image is the list of its 8-byte words; a word is an `Int` (the
  value of the `long` stored there; the same bits reinterpreted as a `VFPTR`
  are represented by the same number).
* `long` and `unsigned long` arithmetic is written with explicit wrap-around
  (`toLong`, `toULong`).
* A load at a byte offset that is not a multiple of 8 is carried out as
  x86-64 does it: it takes the 8 bytes that straddle two words, little-endian.
  A load that is not wholly inside the image depends on memory the image does
  not describe, and signed overflow of `base_address += data` has no defined
  result; the embedding reports both as `Outcome.fault`. The image is any list
  of words that starts at `ptr`: memory that follows the object can be made
  part of it, so a statement about every image also covers the walks that run
  past the end of the object.
* `while (1)` and the `for` loops of the printers are run with a fuel
  counter: `Outcome.outOfFuel` means the loop was still running after `fuel`
  iterations.
* `printf` calls and the indirect call `vftable[i]()` are recorded as events
  of type `Out`, in program order.
-/

namespace VTableInspector

/-! ## Machine integers -/

/-- Value of an integer expression converted to `unsigned long` (64 bit). -/
def toULong (x : Int) : Int := x % 18446744073709551616

/-- Value of an integer expression converted to `long` (64 bit, two's complement). -/
def toLong (x : Int) : Int :=
  (x + 9223372036854775808) % 18446744073709551616 - 9223372036854775808

/-- Predicate: the mathematical result is representable as a `long`. -/
def inLong (x : Int) : Bool :=
  decide (-9223372036854775808 ≤ x) && decide (x < 9223372036854775808)

/-! ## Results of running code -/

/-- Result of running a piece of code with a fuel bound on loop iterations. -/
inductive Outcome (α : Type) where
  | returned (a : α)
  | fault
  | outOfFuel
  deriving DecidableEq, Repr

/-! ## `class ID` -/

/-- The constant `ID::placeholder_id`. -/
def placeholder_id : Int := 0

/-- The class `ID`: the placeholder tag followed by the recorded size. -/
structure ID where
  id : Int
  sizeofclass : Int
  deriving DecidableEq, Repr

/-- The constructor `ID::ID(long sizeofclass)`. -/
def ID.new (sizeofclass : Int) : ID :=
  { id := placeholder_id, sizeofclass := sizeofclass }

/-- The two words an `ID` member occupies in an object image. -/
def ID.words (m : ID) : List Int := [m.id, m.sizeofclass]

/-! ## `class VFPTRS` -/

/-- The class `VFPTRS`: `vftables` is the heap array (its length is the number
of allocated slots), `_size` the number of stored tables, `arraySize` the
capacity. -/
structure VFPTRS where
  vftables : List Int
  _size : Int
  arraySize : Int
  deriving DecidableEq, Repr

namespace VFPTRS

/-- The method `VFPTRS::Init`: a fresh zero-filled array of `arr_size` slots
(10 when `arr_size <= 0`), with no stored table. -/
def Init (_self : VFPTRS) (arr_size : Int) : VFPTRS :=
  let arr_size := if arr_size ≤ 0 then 10 else arr_size
  { vftables := List.replicate arr_size.toNat 0
    _size := 0
    arraySize := arr_size }

/-- The constructor `VFPTRS::VFPTRS(int arr_size = 10)`, which calls `Init`. -/
def new (arr_size : Int) : VFPTRS :=
  Init { vftables := [], _size := 0, arraySize := 0 } arr_size

/-- The method `VFPTRS::AddVFPTR`: the returned flag and the state afterwards. -/
def AddVFPTR (self : VFPTRS) (vftable : Int) : Bool × VFPTRS :=
  if self._size ≥ self.arraySize then
    (false, self)
  else
    (true,
      { self with
        vftables := self.vftables.set self._size.toNat vftable
        _size := self._size + 1 })

/-- The method `VFPTRS::size`. -/
def size (self : VFPTRS) : Int := self._size

/-- The method `VFPTRS::get_VFTable`: `vftables[i]`, with no value when `i` is
outside the allocated array. -/
def get_VFTable (self : VFPTRS) (i : Int) : Option Int :=
  if 0 ≤ i then self.vftables[i.toNat]? else none

/-- The stored tables `vftables[0 .. _size)`, in index order. -/
def entries (self : VFPTRS) : List Int := self.vftables.take self._size.toNat

end VFPTRS

/-! ## `get_VFTABLE` -/

/-- The capacity `MAXSIZE` of the static buffer of `get_VFTABLE`. -/
def MAXSIZE : Int := 5

/-- The weight `256 ^ n` of byte `n` of a little-endian integer. -/
def byteWeight : Nat → Int
  | 0 => 1
  | n + 1 => 256 * byteWeight n

/-- The `long` made of the 8 bytes that start `r` bytes into the word `lo`
(`0 < r < 8`) and end in the word `hi` that follows it, little-endian: the
upper `8 - r` bytes of `lo` become the low bytes of the result. -/
def straddle (lo hi : Int) (r : Nat) : Int :=
  toLong (toULong lo / byteWeight r + (toULong hi % byteWeight r) * byteWeight (8 - r))

/-- The 8-byte load `*reinterpret_cast<long*>(OFFSET + (char*)ptr)` from an
object image, at any byte displacement whose 8 bytes lie inside the image: an
aligned load yields the word stored there, an unaligned one the bytes that
straddle two words. There is no value when a byte of the load is outside the
image. -/
def read (img : List Int) (off : Int) : Option Int :=
  if 0 ≤ off ∧ off % 8 = 0 then
    img[(off / 8).toNat]?
  else if 0 ≤ off then
    match img[(off / 8).toNat]?, img[(off / 8).toNat + 1]? with
    | some lo, some hi => some (straddle lo hi (off % 8).toNat)
    | _, _ => none
  else
    none

/-- The local variables of `get_VFTABLE` that live across loop iterations. -/
structure WalkState where
  vftables : VFPTRS
  base_address : Int
  offset : Int
  deriving DecidableEq, Repr

/-- How one execution of the body of `while (1)` ends. -/
inductive Step where
  | next (s : WalkState)
  | exit (vftables : VFPTRS)
  | fault
  deriving DecidableEq, Repr

/-- One execution of the body of the `while (1)` loop of `get_VFTABLE`;
`sizeofclass` is the value of `ptr->id.sizeofclass`. Line 215 loads it from the
object in every iteration that reaches it; the walk does not write to the
object, so it is the same value each time, and `loadsOf` lists the load. -/
def loopBody (img : List Int) (sizeofclass : Int) (s : WalkState) : Step :=
  match read img s.offset with
  | none => Step.fault
  | some data =>
    if data ≠ placeholder_id then
      Step.next
        { vftables := (s.vftables.AddVFPTR data).2
          base_address := s.base_address
          offset := toLong (s.offset + 8) }
    else
      match read img (toULong (s.offset + 8)) with
      | none => Step.fault
      | some data =>
        if data = sizeofclass then
          Step.exit s.vftables
        else if toULong data = toULong (s.offset + 16 - s.base_address) then
          if inLong (s.base_address + data) then
            Step.next
              { vftables := s.vftables
                base_address := s.base_address + data
                offset := s.base_address + data }
          else
            Step.fault
        else
          Step.next
            { vftables := s.vftables
              base_address := data
              offset := data }

/-- The `while (1)` loop of `get_VFTABLE`, run for at most `fuel` iterations. -/
def loop (img : List Int) (sizeofclass : Int) : Nat → WalkState → Outcome VFPTRS
  | 0, _ => Outcome.outOfFuel
  | fuel + 1, s =>
    match loopBody img sizeofclass s with
    | Step.next s' => loop img sizeofclass fuel s'
    | Step.exit v => Outcome.returned v
    | Step.fault => Outcome.fault

/-- The state in which the loop of `get_VFTABLE` is entered: the static buffer
`static_vftables` re-initialised with `Init(MAXSIZE)`, both cursors at 0. -/
def entryState (static_vftables : VFPTRS) : WalkState :=
  { vftables := static_vftables.Init MAXSIZE
    base_address := 0
    offset := 0 }

/-- The function `get_VFTABLE(T* ptr)`: `static_vftables` is the state of the
function-local static buffer before the call, `img` the words of `*ptr`,
`sizeofclass` the value of `ptr->id.sizeofclass`. The result is the buffer the
returned reference designates. -/
def get_VFTABLE (fuel : Nat) (static_vftables : VFPTRS) (img : List Int)
    (sizeofclass : Int) : Outcome VFPTRS :=
  loop img sizeofclass fuel (entryState static_vftables)

/-! ## The printers -/

/-- Memory outside the scanned object, as the printers use it: `readPtr a`
is the function pointer stored at address `a` (so `vftable[i]` is
`readPtr (vftable + 8 * i)`); `readU32 a` is the `unsigned int` stored at
address `a`, with no value when `a` is not a readable address; `returns f`
tells whether a call of the code at address `f`, without arguments, comes
back. -/
structure Memory where
  readPtr : Int → Int
  readU32 : Int → Option Int
  returns : Int → Bool

/-- What the printers do, one event per `printf` call or indirect call. -/
inductive Out where
  /-- Event `printf("|-VTable Address: %p\n", vftable)`. -/
  | table (vftable : Int)
  /-- Event `printf("   |.Index: %d Virtual Function Address: 0X%x,->", i, x)`. -/
  | index (i : Int) (x : Int)
  /-- Event: the call `vftable[i]()` of the function at address `f`. -/
  | call (f : Int)
  /-- Event `printf("\n")`. -/
  | newline
  /-- Event `printf("|-Object Address: %p Contains %d VTables\n", p, n)`. -/
  | object (p : Int) (n : Int)
  /-- Event `printf("%d: Address: %p\n", i, t)`. -/
  | address (i : Int) (t : Int)
  deriving DecidableEq, Repr

/-- Sequencing of fuel-bounded computations. -/
def Outcome.bind {α β : Type} (x : Outcome α) (f : α → Outcome β) : Outcome β :=
  match x with
  | Outcome.returned a => f a
  | Outcome.fault => Outcome.fault
  | Outcome.outOfFuel => Outcome.outOfFuel

/-- The `for` loop of `PrintVFTable`, entered with loop variable `int i`. An
iteration on a non-null `vftable[i]` loads
`*reinterpret_cast<unsigned int*>(vftable[i])`, which faults on an unreadable
address, prints the entry line, calls `vftable[i]()`, which faults on code
that does not come back, prints the newline and increments `i`, which has no
defined result at `INT_MAX`. The called functions are taken to leave the table
unchanged. -/
def PrintVFTable.loop (mem : Memory) (vftable : Int) : Nat → Int → Outcome (List Out)
  | 0, _ => Outcome.outOfFuel
  | fuel + 1, i =>
    if mem.readPtr (vftable + 8 * i) ≠ 0 then
      match mem.readU32 (mem.readPtr (vftable + 8 * i)) with
      | none => Outcome.fault
      | some x =>
        if mem.returns (mem.readPtr (vftable + 8 * i)) = true then
          if i < 2147483647 then
            (PrintVFTable.loop mem vftable fuel (i + 1)).bind fun rest =>
              Outcome.returned
                (Out.index i x
                  :: Out.call (mem.readPtr (vftable + 8 * i))
                  :: Out.newline
                  :: rest)
          else
            Outcome.fault
        else
          Outcome.fault
    else
      Outcome.returned []

/-- The function `PrintVFTable(const VFPTR& vftable)`. -/
def PrintVFTable (fuel : Nat) (mem : Memory) (vftable : Int) : Outcome (List Out) :=
  (PrintVFTable.loop mem vftable fuel 0).bind fun body =>
    Outcome.returned (Out.table vftable :: body ++ [Out.newline])

/-- The `for` loop of `VFPTRS::Print`, entered with loop variable `i`. -/
def VFPTRS.Print.loop (self : VFPTRS) : Nat → Int → Outcome (List Out)
  | 0, _ => Outcome.outOfFuel
  | fuel + 1, i =>
    if i < self._size then
      match self.get_VFTable i with
      | none => Outcome.fault
      | some t =>
        (VFPTRS.Print.loop self fuel (i + 1)).bind fun rest =>
          Outcome.returned (Out.address i t :: rest)
    else
      Outcome.returned []

/-- The method `VFPTRS::Print`. -/
def VFPTRS.Print (fuel : Nat) (self : VFPTRS) : Outcome (List Out) :=
  VFPTRS.Print.loop self fuel 0

/-- The `for` loop of `PrintClassAll_VFTABLE`, entered with loop variable `i`;
every `PrintVFTable` call gets `fuel` iterations of its own. -/
def PrintClassAll_VFTABLE.loop (fuel : Nat) (mem : Memory) (vftables : VFPTRS) :
    Nat → Int → Outcome (List Out)
  | 0, _ => Outcome.outOfFuel
  | n + 1, i =>
    if i < vftables.size then
      match vftables.get_VFTable i with
      | none => Outcome.fault
      | some t =>
        (PrintVFTable fuel mem t).bind fun shown =>
          (PrintClassAll_VFTABLE.loop fuel mem vftables n (i + 1)).bind fun rest =>
            Outcome.returned (shown ++ rest)
    else
      Outcome.returned []

/-- The function `PrintClassAll_VFTABLE(T* p)`: `p` is the object's address,
`img` its words, `sizeofclass` the value of `p->id.sizeofclass`. -/
def PrintClassAll_VFTABLE (fuel : Nat) (mem : Memory) (static_vftables : VFPTRS)
    (p : Int) (img : List Int) (sizeofclass : Int) : Outcome (List Out) :=
  (get_VFTABLE fuel static_vftables img sizeofclass).bind fun vftables =>
    (PrintClassAll_VFTABLE.loop fuel mem vftables fuel 0).bind fun tables =>
      Outcome.returned (Out.object p vftables.size :: tables)

/-- The `(index, value)` pairs of the entry lines in a printer's output. -/
def reportedEntries : List Out → List (Int × Int)
  | [] => []
  | Out.index i x :: rest => (i, x) :: reportedEntries rest
  | _ :: rest => reportedEntries rest

/-- The tables announced by `|-VTable Address` lines in a printer's output. -/
def renderedTables : List Out → List Int
  | [] => []
  | Out.table t :: rest => t :: renderedTables rest
  | _ :: rest => renderedTables rest

/-! ## Object images

A family of object images, used to state the inheritance scenarios: objects of
classes whose data members are 8-byte words, laid out without padding, base
sub-objects in declaration order, then the members the class itself declares,
its `ID` first.  `ID_INIT` is `id(sizeof(*this))`, so each marker records the
size of the class that declares it.  Classes with padding or over-aligned
members, and secondary bases that have a vtabled base of their own, are not in
this family. -/

/-- A contiguous part of an object image. -/
inductive Region where
  /-- The sub-object of a class with no vtabled base: its vtable pointer, its
  marker (recording the class size `24 + 8 * members.length`) and the data
  members it declares after the marker. -/
  | root (vptr : Int) (members : List Int)
  /-- What a class with vtabled bases adds behind its base sub-objects: its
  marker and the data members it declares after it.  The class is laid out from
  offset 0 of the object, so the recorded class size is the offset at which
  this part ends. -/
  | derived (members : List Int)
  deriving DecidableEq, Repr

/-- The words of a region that starts at byte offset `p` of the object. -/
def Region.words (p : Int) : Region → List Int
  | Region.root vptr members =>
    vptr :: (ID.new (24 + 8 * members.length)).words ++ members
  | Region.derived members =>
    (ID.new (p + 16 + 8 * members.length)).words ++ members

/-- The words of consecutive regions, the first starting at byte offset `p`. -/
def layout (p : Int) : List Region → List Int
  | [] => []
  | r :: rs => r.words p ++ layout (p + 8 * (r.words p).length) rs

/-- Loop iterations `get_VFTABLE` spends on a region. -/
def Region.iterations : Region → Nat
  | Region.root _ _ => 2
  | Region.derived _ => 1

/-- Loop iterations `get_VFTABLE` spends on a list of regions. -/
def walkIterations (rs : List Region) : Nat := (rs.map Region.iterations).sum

/-- The vtable pointers stored in a list of regions, in memory order. -/
def vptrsOf : List Region → List Int
  | [] => []
  | Region.root vptr _ :: rs => vptr :: vptrsOf rs
  | Region.derived _ :: rs => vptrsOf rs

/-- Layouts in which every vtable pointer differs from the sentinel and every
sub-object that starts at a non-zero offset is a `root` without data members
after its marker. -/
def plainBases (p : Int) : List Region → Bool
  | [] => true
  | Region.root vptr members :: rs =>
    decide (vptr ≠ 0) && (decide (p = 0) || decide (members = []))
      && plainBases (p + 8 * ((Region.root vptr members).words p).length) rs
  | Region.derived members :: rs =>
    plainBases (p + 8 * ((Region.derived members).words p).length) rs

/-- Layouts that end with the marker of the most-derived class: either the
object is one `root` (a class without vtabled base), or its last region is the
`derived` part of the most-derived class. -/
def closedByMarker (rs : List Region) : Bool :=
  match rs with
  | [Region.root _ _] => true
  | _ =>
    match rs.getLast? with
    | some (Region.derived _) => true
    | _ => false

/-- The image of `k = vptrs.length` consecutive base sub-objects
`[vptr_i, 0, 24]`. -/
def baseSubobjects : List Int → List Int
  | [] => []
  | vptr :: rest => vptr :: (ID.new 24).words ++ baseSubobjects rest

/-- The image of a class deriving from `k = vptrs.length` bases
`[vptr_i, 0, 24]`: the base sub-objects followed by the most-derived marker
`[0, 24 * k + 16]`. -/
def multipleInheritanceImage (vptrs : List Int) : List Int :=
  baseSubobjects vptrs ++ (ID.new (24 * vptrs.length + 16)).words

/-- The segments of a single-inheritance chain from byte offset `p` on: each
class contributes its marker `[0, s]`, `s` being the offset at which its
segment ends, followed by its data words. -/
def chainSegments (p : Int) : List (List Int) → List Int
  | [] => []
  | members :: rest =>
    (ID.new (p + 16 + 8 * members.length)).words ++ members
      ++ chainSegments (p + 16 + 8 * members.length) rest

/-- The image of an object of a single-inheritance chain: the vtable pointer
at offset 0, then the segment of every class of the chain, outermost base
first. -/
def singleInheritanceImage (vptr : Int) (classes : List (List Int)) : List Int :=
  vptr :: chainSegments 8 classes

/-- Repeated `AddVFPTR`, in list order (what the walk does to its buffer). -/
def addAll (vftables : VFPTRS) (tables : List Int) : VFPTRS :=
  tables.foldl (fun acc t => (acc.AddVFPTR t).2) vftables

/-- The buffer of capacity `MAXSIZE = 5` holding exactly the tables `xs`
(at most 5 of them), its unused slots still zero. -/
def filled (xs : List Int) : VFPTRS :=
  { vftables := xs ++ List.replicate (5 - xs.length) 0
    _size := xs.length
    arraySize := 5 }

/-! ## The trace of the walk -/

/-- The states in which the body of the `while (1)` loop is entered, in order,
during the first `fuel` iterations that start from `s`. -/
def states (img : List Int) (sizeofclass : Int) : Nat → WalkState → List WalkState
  | 0, _ => []
  | fuel + 1, s =>
    s :: match loopBody img sizeofclass s with
      | Step.next s' => states img sizeofclass fuel s'
      | Step.exit _ => []
      | Step.fault => []

/-- The offset whose word the iteration entered in state `s` takes for a vtable
pointer (the branch `data != ID::placeholder_id`), if it does. -/
def recordedOffset (img : List Int) (s : WalkState) : Option Int :=
  match read img s.offset with
  | some data => if data ≠ placeholder_id then some s.offset else none
  | none => none

/-- The offset the iteration entered in state `s` reads as the size field of a
marker (`offset + sizeof(ID::placeholder_id)`), if it reaches that read. -/
def sizeFieldOffset (img : List Int) (s : WalkState) : Option Int :=
  match read img s.offset with
  | some data => if data ≠ placeholder_id then none else some (toULong (s.offset + 8))
  | none => none

/-- The offsets of the words the walk takes for vtable pointers, in the order
it visits them. -/
def vptrOffsets (img : List Int) (sizeofclass : Int) (fuel : Nat) (s : WalkState) : List Int :=
  (states img sizeofclass fuel s).filterMap (recordedOffset img)

/-- The offsets the walk reads as marker size fields (the loads of line 212
only), in the order it visits them. The loads of `ptr->id.sizeofclass` that
follow them are listed by `inspectedOffsets`. -/
def sizeFieldOffsets (img : List Int) (sizeofclass : Int) (fuel : Nat) (s : WalkState) :
    List Int :=
  (states img sizeofclass fuel s).filterMap (sizeFieldOffset img)

/-- The offset whose word the iteration entered in state `s` takes for the tag
of a marker (the branch `data == ID::placeholder_id`), if it does. -/
def tagOffset (img : List Int) (s : WalkState) : Option Int :=
  match read img s.offset with
  | some data => if data ≠ placeholder_id then none else some s.offset
  | none => none

/-- The offsets of the words the walk takes for marker tags, in the order it
visits them. -/
def tagOffsets (img : List Int) (sizeofclass : Int) (fuel : Nat) (s : WalkState) : List Int :=
  (states img sizeofclass fuel s).filterMap (tagOffset img)

/-- The indices of the image words that an 8-byte load at the byte offset
`off ≥ 0` takes bytes from: one word when `off` is a multiple of 8, two
otherwise. -/
def wordsOf (off : Int) : List Nat :=
  if off % 8 = 0 then [(off / 8).toNat] else [(off / 8).toNat, (off / 8).toNat + 1]

/-- The byte offsets from `ptr` at which the iteration entered in state `s`
loads from the object, in program order: the word at `offset` (line 199); when
it is the sentinel, the size field behind it (line 212); and, when that load
succeeds, `ptr->id.sizeofclass` (line 215), which lies at `id_offset + 8` when
the member `id` of the static type of `ptr` is at byte offset `id_offset`. -/
def loadsOf (img : List Int) (id_offset : Int) (s : WalkState) : List Int :=
  match read img s.offset with
  | none => [s.offset]
  | some data =>
    if data ≠ placeholder_id then
      [s.offset]
    else
      match read img (toULong (s.offset + 8)) with
      | none => [s.offset, toULong (s.offset + 8)]
      | some _ => [s.offset, toULong (s.offset + 8), id_offset + 8]

/-- Every byte offset at which the walk loads from the object, in program
order. -/
def inspectedOffsets (img : List Int) (sizeofclass id_offset : Int) (fuel : Nat)
    (s : WalkState) : List Int :=
  ((states img sizeofclass fuel s).map (loadsOf img id_offset)).flatten

/-- The part of the loop body that follows the read of the size field `data`. -/
def afterSizeField (sizeofclass : Int) (s : WalkState) (data : Int) : Step :=
  if data = sizeofclass then
    Step.exit s.vftables
  else if toULong data = toULong (s.offset + 16 - s.base_address) then
    if inLong (s.base_address + data) then
      Step.next
        { vftables := s.vftables
          base_address := s.base_address + data
          offset := s.base_address + data }
    else
      Step.fault
  else
    Step.next
      { vftables := s.vftables
        base_address := data
        offset := data }

/-- The events of `n` consecutive iterations of the loop of `PrintVFTable` that
start at index `i`: entry line, call, newline for each slot. The value on the
entry line is the `unsigned int` stored at the address the slot holds. -/
def entryEvents (mem : Memory) (vftable : Int) : Int → Nat → List Out
  | _, 0 => []
  | i, n + 1 =>
    Out.index i ((mem.readU32 (mem.readPtr (vftable + 8 * i))).getD 0)
      :: Out.call (mem.readPtr (vftable + 8 * i))
      :: Out.newline
      :: entryEvents mem vftable (i + 1) n

/-- The tables a `PrintVFTable` call can enumerate: the table at `vftable`
holds `n` entries, each the address of readable code that comes back when
called without arguments, followed by a null entry, and `n` is a value of
`int`. -/
def terminatedTable (mem : Memory) (vftable : Int) (n : Nat) : Prop :=
  (∀ j : Nat, j < n →
      mem.readPtr (vftable + 8 * (j : Int)) ≠ 0
        ∧ (mem.readU32 (mem.readPtr (vftable + 8 * (j : Int)))).isSome = true
        ∧ mem.returns (mem.readPtr (vftable + 8 * (j : Int))) = true)
    ∧ mem.readPtr (vftable + 8 * (n : Int)) = 0
    ∧ (n : Int) ≤ 2147483647

/-- A memory with three functions, at addresses 8192, 8200 and 8208, whose
machine code starts with the bytes `55 48 89 E5` (`unsigned int` value
`0xE5894855 = 3850979413`), and three vtables. At 4096 the null-terminated
table `[8192]`, at 5000 the null-terminated table `[8200, 8208]`. At 6000 the
first table of a class with two vtabled bases as g++ emits it: the functions
8192 and 8200 are followed, without a null, by the group of the second base
(offset-to-top -24, type information at 7000, the thunk 8208), and only then
by a null word. No other address holds readable code. -/
def exampleMemory : Memory :=
  { readPtr := fun a =>
      if a = 4096 then 8192 else if a = 5000 then 8200 else if a = 5008 then 8208
      else if a = 6000 then 8192 else if a = 6008 then 8200 else if a = 6016 then -24
      else if a = 6024 then 7000 else if a = 6032 then 8208 else 0
    readU32 := fun a =>
      if a = 8192 ∨ a = 8200 ∨ a = 8208 then some 3850979413 else none
    returns := fun a => decide (a = 8192 ∨ a = 8200 ∨ a = 8208) }

/-! ## The test program's classes

`Base` and `Derived : Base` of `test.cpp`, as g++/clang lay them out on LP64:
`Base` is its vtable pointer and its `ID` (24 bytes), `Derived` adds its own
`ID` behind the `Base` sub-object (40 bytes). -/

/-- The value of `sizeof(Base)`: the vtable pointer and `Base::id`. -/
def sizeof_Base : Int := 24

/-- The value of `sizeof(Derived)`: the `Base` sub-object and `Derived::id`. -/
def sizeof_Derived : Int := 40

/-- An object of class `Base`: its vtable pointer and the member `id` that
`INSERT_ID_MEMBER` declares. -/
structure Base where
  vptr : Int
  id : ID
  deriving DecidableEq, Repr

/-- An object of class `Derived`: the `Base` sub-object and the member `id`
that `INSERT_ID_MEMBER` declares in `Derived` (it hides `Base::id`). -/
structure Derived where
  base : Base
  id : ID
  deriving DecidableEq, Repr

/-- The constructor `Base() : ID_INIT {}`, where `ID_INIT` is
`id(sizeof(*this))` and `*this` has type `Base`; `vptr` is the address of the
vtable the constructor installs. -/
def Base.new (vptr : Int) : Base :=
  { vptr := vptr, id := ID.new sizeof_Base }

/-- The constructor `Derived() : Base(), ID_INIT {}`: the base constructor
runs first, then `*this` has type `Derived` in `ID_INIT`, and the vtable
pointer is set to the vtable of `Derived` at `vptr`. -/
def Derived.new (vptr_of_Base vptr : Int) : Derived :=
  { base := { Base.new vptr_of_Base with vptr := vptr }
    id := ID.new sizeof_Derived }

/-- The words of a `Derived` object, in memory order. -/
def Derived.image (d : Derived) : List Int :=
  d.base.vptr :: d.base.id.words ++ d.id.words

/-- The marker records embedded in a `Derived` object, in memory order. -/
def Derived.markers (d : Derived) : List ID := [d.base.id, d.id]

/-- A class written as the header prescribes, with `INSERT_ID_MEMBER` and a
constructor whose initializer list names its base classes and `ID_INIT`: the
value of `sizeof` for the class (whatever padding and alignment the compiler
applies) and its direct base classes of the same kind, in declaration
order. -/
inductive ClassDecl where
  | mk (sizeof : Int) (bases : List ClassDecl)

/-- The value of `sizeof` for a class. -/
def ClassDecl.sizeof : ClassDecl → Int
  | ClassDecl.mk sizeof _ => sizeof

mutual
/-- The marker records planted while an object of the class is constructed, in
construction order: the constructors of the base classes run first, in
declaration order, then `ID_INIT` plants `id(sizeof(*this))`, where `*this`
has the type of the class whose constructor is running. -/
def ClassDecl.markers : ClassDecl → List ID
  | ClassDecl.mk sizeof bases => ClassDecl.markersOfBases bases ++ [ID.new sizeof]
/-- The marker records planted by the constructors of a list of base classes. -/
def ClassDecl.markersOfBases : List ClassDecl → List ID
  | [] => []
  | b :: bs => b.markers ++ ClassDecl.markersOfBases bs
end

mutual
/-- The classes whose constructors run while an object of the class is
constructed, in the order in which they plant their marker: the most-derived
class is last. -/
def ClassDecl.constructionOrder : ClassDecl → List ClassDecl
  | ClassDecl.mk sizeof bases =>
    ClassDecl.constructionOrderOfBases bases ++ [ClassDecl.mk sizeof bases]
/-- The classes whose constructors run for a list of base classes. -/
def ClassDecl.constructionOrderOfBases : List ClassDecl → List ClassDecl
  | [] => []
  | b :: bs => b.constructionOrder ++ ClassDecl.constructionOrderOfBases bs
end

/-- The state of the specified walk. -/
structure SpecState where
  offset : Int
  base : Int
  output : List Int
  deriving DecidableEq, Repr

/-- How one specified iteration ends: it goes on in a new state, stops with
the output, or is undefined because the word to read does not exist. -/
inductive SpecStep where
  | proceed (s : SpecState)
  | stop (output : List Int)
  | undefined
  deriving DecidableEq, Repr

/-- One iteration as the specification words it: a non-sentinel word is
appended to the output (if the capacity allows) and `offset` advances by `W`;
on a sentinel word the `totalSize` field is read at `offset + sizeof(tag)`;
if it equals the known full object size the scan stops; else if it equals
`(offset + sizeof(Marker)) - base` then `base += totalSize`, `offset = base`;
else `base = totalSize`, `offset = base`. -/
def specStep (capacity : Nat) (img : List Int) (fullSize : Int) (s : SpecState) : SpecStep :=
  match read img s.offset with
  | none => SpecStep.undefined
  | some word =>
    if word ≠ 0 then
      SpecStep.proceed
        { offset := s.offset + 8
          base := s.base
          output := if s.output.length < capacity then s.output ++ [word] else s.output }
    else
      match read img (s.offset + 8) with
      | none => SpecStep.undefined
      | some totalSize =>
        if totalSize = fullSize then
          SpecStep.stop s.output
        else if totalSize = (s.offset + 16) - s.base then
          SpecStep.proceed
            { offset := s.base + totalSize
              base := s.base + totalSize
              output := s.output }
        else
          SpecStep.proceed
            { offset := totalSize
              base := totalSize
              output := s.output }

/-- The specified state a state of `get_VFTABLE` stands for: its two cursors
and the tables stored so far. -/
def WalkState.abstract (s : WalkState) : SpecState :=
  { offset := s.offset
    base := s.base_address
    output := s.vftables.entries }

/-- The specified outcome an outcome of the loop body stands for. -/
def Step.abstract : Step → SpecStep
  | Step.next s => SpecStep.proceed s.abstract
  | Step.exit vftables => SpecStep.stop vftables.entries
  | Step.fault => SpecStep.undefined

/-! ## States of a `VFPTRS` object -/

/-- The representation invariant of `VFPTRS`: the array has `arraySize > 0`
slots and `0 <= _size <= arraySize`. -/
def VFPTRS.valid (self : VFPTRS) : Prop :=
  self.vftables.length = self.arraySize.toNat
    ∧ 0 < self.arraySize ∧ 0 ≤ self._size ∧ self._size ≤ self.arraySize

/-- The states a `VFPTRS` object can be in: the state after a constructor or
`Init` call, and every state reached from one by `Init` and `AddVFPTR`
calls. -/
inductive VFPTRS.Reachable : VFPTRS → Prop where
  | constructed (arr_size : Int) : VFPTRS.Reachable (VFPTRS.new arr_size)
  | initialised (self : VFPTRS) (arr_size : Int) : VFPTRS.Reachable (self.Init arr_size)
  | added (self : VFPTRS) (vftable : Int) :
      VFPTRS.Reachable self → VFPTRS.Reachable (self.AddVFPTR vftable).2

/-- What every state of a walk satisfies: the buffer is valid with capacity
`MAXSIZE`, and `base_address` is a non-negative `long` whenever the word at
`offset` can be read. -/
def walkInvariant (img : List Int) (s : WalkState) : Prop :=
  s.vftables.valid ∧ s.vftables.arraySize = MAXSIZE
    ∧ ((0 ≤ s.base_address ∧ s.base_address < 9223372036854775808)
      ∨ read img s.offset = none)

/-! ## Arithmetic and memory lemmas -/

theorem toLong_of_inRange (x : Int) (h1 : -9223372036854775808 ≤ x)
    (h2 : x < 9223372036854775808) : toLong x = x := by
  unfold toLong; omega

theorem toULong_of_inRange (x : Int) (h1 : 0 ≤ x)
    (h2 : x < 18446744073709551616) : toULong x = x := by
  unfold toULong; omega

theorem inLong_of_inRange (x : Int) (h1 : -9223372036854775808 ≤ x)
    (h2 : x < 9223372036854775808) : inLong x = true := by
  simp [inLong, h1, h2]

theorem read_word (img : List Int) (n : Nat) : read img (8 * (n : Int)) = img[n]? := by
  have h : 0 ≤ 8 * (n : Int) ∧ 8 * (n : Int) % 8 = 0 := by omega
  have h2 : (8 * (n : Int) / 8).toNat = n := by omega
  simp [read, h, h2]

theorem getElem?_after_front (pre w : List Int) (j : Nat) :
    (pre ++ w)[pre.length + j]? = w[j]? := by
  induction pre with
  | nil => simp
  | cons x xs ih =>
    have h : (x :: xs).length + j = (xs.length + j) + 1 := by simp; omega
    rw [h]
    simpa using ih

theorem read_at0 (pre rest : List Int) (a : Int) :
    read (pre ++ a :: rest) (8 * (pre.length : Int)) = some a := by
  rw [read_word]
  simpa using getElem?_after_front pre (a :: rest) 0

theorem read_at1 (pre rest : List Int) (a b : Int) :
    read (pre ++ a :: b :: rest) (8 * (pre.length : Int) + 8) = some b := by
  have h : 8 * (pre.length : Int) + 8 = 8 * ((pre.length + 1 : Nat) : Int) := by push_cast; ring
  rw [h, read_word]
  simpa using getElem?_after_front pre (a :: b :: rest) 1

theorem read_at2 (pre rest : List Int) (a b c : Int) :
    read (pre ++ a :: b :: c :: rest) (8 * (pre.length : Int) + 16) = some c := by
  have h : 8 * (pre.length : Int) + 16 = 8 * ((pre.length + 2 : Nat) : Int) := by push_cast; ring
  rw [h, read_word]
  simpa using getElem?_after_front pre (a :: b :: c :: rest) 2

/-! ## Single steps of the walk -/

theorem loopBody_vptr (img : List Int) (top : Int) (w : VFPTRS) (b o v : Int)
    (hr : read img o = some v) (hv : v ≠ 0)
    (ho1 : -9223372036854775808 ≤ o + 8) (ho2 : o + 8 < 9223372036854775808) :
    loopBody img top ⟨w, b, o⟩ = Step.next ⟨(w.AddVFPTR v).2, b, o + 8⟩ := by
  simp [loopBody, hr, placeholder_id, hv, toLong_of_inRange _ ho1 ho2]

theorem loopBody_exit (img : List Int) (top : Int) (w : VFPTRS) (b o : Int)
    (hr : read img o = some 0) (hs : read img (o + 8) = some top)
    (ho1 : 0 ≤ o) (ho2 : o + 8 < 9223372036854775808) :
    loopBody img top ⟨w, b, o⟩ = Step.exit w := by
  have h : toULong (o + 8) = o + 8 := toULong_of_inRange _ (by omega) (by omega)
  simp [loopBody, hr, placeholder_id, h, hs]

theorem loopBody_marker (img : List Int) (top : Int) (w : VFPTRS) (b o s e : Int)
    (hr : read img o = some 0) (hs : read img (o + 8) = some s) (hne : s ≠ top)
    (ho1 : 0 ≤ o) (ho2 : o + 8 < 9223372036854775808)
    (he1 : -9223372036854775808 ≤ e) (he2 : e < 9223372036854775808)
    (hrel : toULong s = toULong (o + 16 - b) → b + s = e)
    (habs : toULong s ≠ toULong (o + 16 - b) → s = e) :
    loopBody img top ⟨w, b, o⟩ = Step.next ⟨w, e, e⟩ := by
  have h : toULong (o + 8) = o + 8 := toULong_of_inRange _ (by omega) (by omega)
  by_cases hc : toULong s = toULong (o + 16 - b)
  · have hb := hrel hc
    subst hb
    have hin : inLong (b + s) = true := inLong_of_inRange _ he1 he2
    simp [loopBody, hr, placeholder_id, h, hs, hne, hc, hin]
  · have hb := habs hc
    subst hb
    simp [loopBody, hr, placeholder_id, h, hs, hne, hc]

/-! ## The walk over one region -/

theorem loop_succ_next (img : List Int) (top : Int) (fuel : Nat) (s s' : WalkState)
    (h : loopBody img top s = Step.next s') :
    loop img top (fuel + 1) s = loop img top fuel s' := by
  simp [loop, h]

theorem loop_succ_exit (img : List Int) (top : Int) (fuel : Nat) (s : WalkState)
    (w : VFPTRS) (h : loopBody img top s = Step.exit w) :
    loop img top (fuel + 1) s = Outcome.returned w := by
  simp [loop, h]

theorem loop_region (pre post : List Int) (top : Int) (r : Region) (w : VFPTRS)
    (fuel : Nat)
    (hr : plainBases (8 * (pre.length : Int)) [r] = true)
    (htop : 8 * (pre.length : Int) + 8 * ((r.words (8 * (pre.length : Int))).length : Int) < top)
    (hlong : top ≤ 9223372036854775808) :
    loop (pre ++ r.words (8 * (pre.length : Int)) ++ post) top (fuel + r.iterations)
        ⟨w, 8 * (pre.length : Int), 8 * (pre.length : Int)⟩
      = loop (pre ++ r.words (8 * (pre.length : Int)) ++ post) top fuel
        ⟨addAll w (vptrsOf [r]),
          8 * (pre.length : Int) + 8 * ((r.words (8 * (pre.length : Int))).length : Int),
          8 * (pre.length : Int) + 8 * ((r.words (8 * (pre.length : Int))).length : Int)⟩ := by
  cases r with
  | root v d =>
    simp only [plainBases, Bool.and_true, Bool.and_eq_true, Bool.or_eq_true,
      decide_eq_true_eq] at hr
    obtain ⟨hv, hd⟩ := hr
    simp only [Region.words, ID.words, ID.new, placeholder_id, List.cons_append,
      List.nil_append, List.length_cons, List.append_assoc, Region.iterations, vptrsOf,
      addAll, List.foldl_cons, List.foldl_nil] at htop ⊢
    push_cast at htop ⊢
    have e1 := loopBody_vptr (pre ++ v :: 0 :: (24 + 8 * (d.length : Int)) :: (d ++ post)) top w
      (8 * (pre.length : Int)) (8 * (pre.length : Int)) v (read_at0 _ _ _) hv
      (by omega) (by omega)
    rw [show fuel + 2 = (fuel + 1) + 1 from rfl, loop_succ_next _ _ _ _ _ e1]
    have e2 := loopBody_marker (pre ++ v :: 0 :: (24 + 8 * (d.length : Int)) :: (d ++ post)) top
      (w.AddVFPTR v).2 (8 * (pre.length : Int)) (8 * (pre.length : Int) + 8)
      (24 + 8 * (d.length : Int))
      (8 * (pre.length : Int) + 8 * ((d.length : Int) + 1 + 1 + 1))
      (read_at1 _ _ _ _)
      (by
        have h := read_at2 pre (d ++ post) v 0 (24 + 8 * (d.length : Int))
        rw [show 8 * (pre.length : Int) + 8 + 8 = 8 * (pre.length : Int) + 16 by ring]
        exact h)
      (by omega) (by omega) (by omega) (by omega) (by omega)
      (by
        intro _
        rcases hd with hd | hd
        · omega
        · subst hd; simp)
      (by
        intro hne
        rcases hd with hd | hd
        · omega
        · subst hd
          exfalso; apply hne
          simp only [List.length_nil, Nat.cast_zero, mul_zero, add_zero]
          congr 1; ring)
    rw [loop_succ_next _ _ _ _ _ e2]
  | derived d =>
    simp only [Region.words, ID.words, ID.new, placeholder_id, List.cons_append,
      List.nil_append, List.length_cons, List.append_assoc, Region.iterations, vptrsOf,
      addAll, List.foldl_nil] at htop ⊢
    push_cast at htop ⊢
    have e2 := loopBody_marker
      (pre ++ 0 :: (8 * (pre.length : Int) + 16 + 8 * (d.length : Int)) :: (d ++ post)) top
      w (8 * (pre.length : Int)) (8 * (pre.length : Int))
      (8 * (pre.length : Int) + 16 + 8 * (d.length : Int))
      (8 * (pre.length : Int) + 8 * ((d.length : Int) + 1 + 1))
      (read_at0 _ _ _) (read_at1 _ _ _ _)
      (by omega) (by omega) (by omega) (by omega) (by omega)
      (by intro h; unfold toULong at h; omega)
      (by intro _; ring)
    rw [loop_succ_next _ _ _ _ _ e2]

/-! ## The walk over a layout -/

theorem plainBases_cons (p : Int) (r : Region) (rs : List Region) :
    plainBases p (r :: rs)
      = (plainBases p [r] && plainBases (p + 8 * ((r.words p).length : Int)) rs) := by
  cases r <;> simp [plainBases]

theorem plainBases_append (rs ss : List Region) : ∀ p : Int,
    plainBases p (rs ++ ss)
      = (plainBases p rs && plainBases (p + 8 * ((layout p rs).length : Int)) ss) := by
  induction rs with
  | nil => intro p; simp [plainBases, layout]
  | cons r rs ih =>
    intro p
    rw [List.cons_append, plainBases_cons, ih, plainBases_cons p r rs]
    simp only [layout, List.length_append, Nat.cast_add, Bool.and_assoc]
    rw [show p + 8 * ((r.words p).length : Int) + 8 * ((layout (p + 8 * ((r.words p).length : Int)) rs).length : Int)
      = p + 8 * (((r.words p).length : Int) + ((layout (p + 8 * ((r.words p).length : Int)) rs).length : Int)) by ring]

theorem layout_append (rs ss : List Region) : ∀ p : Int,
    layout p (rs ++ ss) = layout p rs ++ layout (p + 8 * ((layout p rs).length : Int)) ss := by
  induction rs with
  | nil => intro p; simp [layout]
  | cons r rs ih =>
    intro p
    rw [List.cons_append]
    simp only [layout, ih, List.append_assoc, List.length_append, Nat.cast_add]
    rw [show p + 8 * ((r.words p).length : Int) + 8 * ((layout (p + 8 * ((r.words p).length : Int)) rs).length : Int)
      = p + 8 * (((r.words p).length : Int) + ((layout (p + 8 * ((r.words p).length : Int)) rs).length : Int)) by ring]

theorem vptrsOf_cons (r : Region) (rs : List Region) :
    vptrsOf (r :: rs) = vptrsOf [r] ++ vptrsOf rs := by
  cases r <;> simp [vptrsOf]

theorem vptrsOf_append (rs ss : List Region) :
    vptrsOf (rs ++ ss) = vptrsOf rs ++ vptrsOf ss := by
  induction rs with
  | nil => simp [vptrsOf]
  | cons r rs ih => rw [List.cons_append, vptrsOf_cons, ih, vptrsOf_cons r rs, List.append_assoc]

theorem addAll_append (w : VFPTRS) (xs ys : List Int) :
    addAll w (xs ++ ys) = addAll (addAll w xs) ys := by
  simp [addAll, List.foldl_append]

theorem loop_layout (top : Int) (hlong : top ≤ 9223372036854775808) (rs : List Region) :
    ∀ (pre post : List Int) (w : VFPTRS) (fuel : Nat) (p : Int),
      p = 8 * (pre.length : Int) →
      plainBases p rs = true →
      p + 8 * ((layout p rs).length : Int) < top →
      loop (pre ++ layout p rs ++ post) top (fuel + walkIterations rs) ⟨w, p, p⟩
        = loop (pre ++ layout p rs ++ post) top fuel
          ⟨addAll w (vptrsOf rs), p + 8 * ((layout p rs).length : Int),
            p + 8 * ((layout p rs).length : Int)⟩ := by
  induction rs with
  | nil =>
    intro pre post w fuel p _ _ _
    simp [layout, walkIterations, vptrsOf, addAll]
  | cons r rs ih =>
    intro pre post w fuel p hp hs htop
    rw [plainBases_cons, Bool.and_eq_true] at hs
    obtain ⟨hr, hrs⟩ := hs
    subst hp
    simp only [layout, List.length_append, Nat.cast_add] at htop ⊢
    have hlen : (0 : Int) ≤ ((layout (8 * (pre.length : Int)
        + 8 * ((r.words (8 * (pre.length : Int))).length : Int)) rs).length : Int) :=
      Int.ofNat_nonneg _
    have step := loop_region pre
      (layout (8 * (pre.length : Int) + 8 * ((r.words (8 * (pre.length : Int))).length : Int)) rs
        ++ post) top r w (fuel + walkIterations rs) hr (by omega) hlong
    have hfuel : fuel + walkIterations (r :: rs) = fuel + walkIterations rs + r.iterations := by
      simp [walkIterations]; omega
    have himg : pre ++ (r.words (8 * (pre.length : Int))
          ++ layout (8 * (pre.length : Int)
            + 8 * ((r.words (8 * (pre.length : Int))).length : Int)) rs) ++ post
        = pre ++ r.words (8 * (pre.length : Int))
          ++ (layout (8 * (pre.length : Int)
            + 8 * ((r.words (8 * (pre.length : Int))).length : Int)) rs ++ post) := by
      simp [List.append_assoc]
    rw [hfuel, himg, step]
    have next := ih (pre ++ r.words (8 * (pre.length : Int))) post (addAll w (vptrsOf [r])) fuel
      (8 * (pre.length : Int) + 8 * ((r.words (8 * (pre.length : Int))).length : Int))
      (by rw [List.length_append]; push_cast; ring) hrs (by omega)
    rw [List.append_assoc] at next
    rw [next, vptrsOf_cons r rs, addAll_append]
    congr 2 <;> ring

/-! ## The walk over a whole object -/

theorem entryState_eq (st : VFPTRS) :
    entryState st = ⟨VFPTRS.new MAXSIZE, 0, 0⟩ := rfl

theorem get_VFTABLE_layout (rs : List Region) (st : VFPTRS) (fuel : Nat)
    (hp : plainBases 0 rs = true) (hc : closedByMarker rs = true)
    (hsize : 8 * ((layout 0 rs).length : Int) < 9223372036854775808)
    (hfuel : walkIterations rs ≤ fuel) :
    get_VFTABLE fuel st (layout 0 rs) (8 * ((layout 0 rs).length : Int))
      = Outcome.returned (addAll (VFPTRS.new MAXSIZE) (vptrsOf rs)) := by
  obtain ⟨extra, rfl⟩ : ∃ e, fuel = e + walkIterations rs := ⟨fuel - walkIterations rs, by omega⟩
  unfold get_VFTABLE
  rw [entryState_eq]
  unfold closedByMarker at hc
  split at hc
  · rename_i v d
    simp only [plainBases, Bool.and_true, Bool.and_eq_true, Bool.or_eq_true,
      decide_eq_true_eq] at hp
    simp only [layout, Region.words, ID.words, ID.new, placeholder_id, List.cons_append,
      List.nil_append, List.length_cons, List.append_nil, walkIterations, List.map_cons,
      List.map_nil, List.sum_cons, List.sum_nil, Region.iterations, vptrsOf, addAll,
      List.foldl_cons, List.foldl_nil] at hsize ⊢
    push_cast at hsize ⊢
    have e1 := loopBody_vptr (v :: 0 :: (24 + 8 * (d.length : Int)) :: d)
      (8 * ((d.length : Int) + 1 + 1 + 1)) (VFPTRS.new MAXSIZE) 0 0 v
      (by simpa using read_at0 [] (0 :: (24 + 8 * (d.length : Int)) :: d) v) hp.1
      (by omega) (by omega)
    have e2 := loopBody_exit (v :: 0 :: (24 + 8 * (d.length : Int)) :: d)
      (8 * ((d.length : Int) + 1 + 1 + 1)) ((VFPTRS.new MAXSIZE).AddVFPTR v).2 0 (0 + 8)
      (by simpa using read_at1 [] ((24 + 8 * (d.length : Int)) :: d) v 0)
      (by
        have h := read_at2 [] d v 0 (24 + 8 * (d.length : Int))
        simp only [List.nil_append, List.length_nil, Nat.cast_zero, mul_zero, zero_add] at h
        rw [show (0 : Int) + 8 + 8 = 16 by norm_num, h]
        congr 1; ring)
      (by omega) (by omega)
    rw [show extra + (2 + 0) = (extra + 1) + 1 from rfl, loop_succ_next _ _ _ _ _ e1,
      loop_succ_exit _ _ _ _ _ e2]
  · split at hc
    · rename_i d hlast
      obtain ⟨init, rfl⟩ := List.getLast?_eq_some_iff.mp hlast
      rw [plainBases_append, Bool.and_eq_true] at hp
      rw [layout_append] at hsize ⊢
      simp only [layout, Region.words, ID.words, ID.new, placeholder_id, List.cons_append,
        List.nil_append, List.length_cons, List.append_nil, List.length_append,
        zero_add] at hsize ⊢
      push_cast at hsize ⊢
      have hw : walkIterations (init ++ [Region.derived d]) = walkIterations init + 1 := by
        simp [walkIterations, Region.iterations]
      rw [hw, show extra + (walkIterations init + 1) = extra + 1 + walkIterations init by omega]
      have hlen : (0 : Int) ≤ ((layout 0 init).length : Int) := Int.ofNat_nonneg _
      have hd : (0 : Int) ≤ (d.length : Int) := Int.ofNat_nonneg _
      have walk := loop_layout
        (8 * (((layout 0 init).length : Int) + ((d.length : Int) + 1 + 1)))
        (by omega) init []
        (0 :: (8 * ((layout 0 init).length : Int) + 16 + 8 * (d.length : Int)) :: d)
        (VFPTRS.new MAXSIZE) (extra + 1) 0 (by simp) hp.1 (by omega)
      simp only [List.nil_append, zero_add] at walk
      rw [walk]
      have e2 := loopBody_exit
        (layout 0 init ++ 0 :: (8 * ((layout 0 init).length : Int) + 16 + 8 * (d.length : Int)) :: d)
        (8 * (((layout 0 init).length : Int) + ((d.length : Int) + 1 + 1)))
        (addAll (VFPTRS.new MAXSIZE) (vptrsOf init))
        (8 * ((layout 0 init).length : Int)) (8 * ((layout 0 init).length : Int))
        (read_at0 _ _ _)
        (by rw [read_at1]; congr 1; ring)
        (by omega) (by omega)
      rw [loop_succ_exit _ _ _ _ _ e2, vptrsOf_append]
      simp [vptrsOf]
    · simp at hc

/-! ## The buffer after repeated `AddVFPTR` -/

theorem set_after_front (xs : List Int) (n : Nat) (v : Int) :
    (xs ++ List.replicate (n + 1) 0).set xs.length v = xs ++ v :: List.replicate n 0 := by
  induction xs with
  | nil => simp [List.replicate_succ]
  | cons x xs ih => simpa using ih

theorem new_eq_filled : VFPTRS.new MAXSIZE = filled [] := rfl

theorem AddVFPTR_filled (xs : List Int) (v : Int) (h : xs.length ≤ 5) :
    ((filled xs).AddVFPTR v).2 = filled ((xs ++ [v]).take 5) := by
  by_cases hfull : xs.length = 5
  · have ht : (xs ++ [v]).take 5 = xs := by
      rw [List.take_append_of_le_length (by omega)]
      exact List.take_of_length_le (by omega)
    rw [ht]
    simp [VFPTRS.AddVFPTR, filled, hfull]
  · have hlt : xs.length < 5 := by omega
    have ht : (xs ++ [v]).take 5 = xs ++ [v] :=
      List.take_of_length_le (by simp; omega)
    rw [ht]
    have hn : 5 - xs.length = (5 - (xs.length + 1)) + 1 := by omega
    have hcond : ¬ ((5 : Int) ≤ (xs.length : Int)) := by omega
    simp only [VFPTRS.AddVFPTR, filled, ge_iff_le, hcond, if_false, Int.toNat_ofNat,
      List.length_append, List.length_singleton, Nat.cast_add, Nat.cast_one]
    rw [hn, set_after_front]
    simp

theorem addAll_filled (vs : List Int) : ∀ xs : List Int, xs.length ≤ 5 →
    addAll (filled xs) vs = filled ((xs ++ vs).take 5) := by
  induction vs with
  | nil =>
    intro xs h
    simp [addAll, List.take_of_length_le h]
  | cons v vs ih =>
    intro xs h
    have hstep : addAll (filled xs) (v :: vs) = addAll ((filled xs).AddVFPTR v).2 vs := rfl
    rw [hstep, AddVFPTR_filled xs v h, ih _ (by simp)]
    congr 1
    by_cases hfull : xs.length = 5
    · rw [List.take_append_of_le_length (by simp; omega),
        List.take_append_of_le_length (by omega),
        List.take_append_of_le_length (by omega)]
      simp
    · have ht : (xs ++ [v]).take 5 = xs ++ [v] :=
        List.take_of_length_le (by simp; omega)
      rw [ht]; simp

theorem addAll_new (vs : List Int) :
    addAll (VFPTRS.new MAXSIZE) vs = filled (vs.take 5) := by
  rw [new_eq_filled, addAll_filled vs [] (by simp)]; simp

theorem filled_size (xs : List Int) : (filled xs).size = xs.length := rfl

theorem filled_entries (xs : List Int) : (filled xs).entries = xs := by
  simp [VFPTRS.entries, filled]

theorem filled_get (xs : List Int) (i : Nat) (h : i < xs.length) :
    (filled xs).get_VFTable i = some (xs.get ⟨i, h⟩) := by
  simp [VFPTRS.get_VFTable, filled, List.getElem?_append_left h]

/-! ## The images of the inheritance scenarios as layouts -/

theorem layout_roots (vs : List Int) : ∀ p : Int,
    layout p (vs.map fun v => Region.root v []) = baseSubobjects vs := by
  induction vs with
  | nil => intro p; rfl
  | cons v vs ih =>
    intro p
    simp [layout, baseSubobjects, Region.words, ID.words, ID.new, ih]

theorem baseSubobjects_length (vs : List Int) :
    (baseSubobjects vs).length = 3 * vs.length := by
  induction vs with
  | nil => rfl
  | cons v vs ih => simp [baseSubobjects, ID.words, ih]; omega

theorem plainBases_roots (vs : List Int) (hv : ∀ v ∈ vs, v ≠ 0) : ∀ p : Int,
    plainBases p (vs.map fun v => Region.root v []) = true := by
  induction vs with
  | nil => intro p; rfl
  | cons v vs ih =>
    intro p
    have h1 : v ≠ 0 := hv v (by simp)
    have h2 := ih (fun x hx => hv x (by simp [hx]))
    simp [plainBases, h1, h2]

theorem vptrsOf_roots (vs : List Int) :
    vptrsOf (vs.map fun v => Region.root v []) = vs := by
  induction vs with
  | nil => rfl
  | cons v vs ih => simp [vptrsOf, ih]

theorem walkIterations_roots (vs : List Int) :
    walkIterations (vs.map fun v => Region.root v []) = 2 * vs.length := by
  induction vs with
  | nil => rfl
  | cons v vs ih =>
    simp only [walkIterations, List.map_cons, List.sum_cons, Region.iterations,
      List.length_cons] at ih ⊢
    omega

theorem closedByMarker_concat_derived (init : List Region) (d : List Int) :
    closedByMarker (init ++ [Region.derived d]) = true := by
  unfold closedByMarker
  split
  · rfl
  · simp

theorem multipleInheritanceImage_eq_layout (vs : List Int) :
    multipleInheritanceImage vs
      = layout 0 ((vs.map fun v => Region.root v []) ++ [Region.derived []]) := by
  rw [layout_append, layout_roots]
  simp only [multipleInheritanceImage, layout, Region.words, ID.words, ID.new,
    baseSubobjects_length, List.append_nil, List.length_nil]
  push_cast
  congr 3
  ring

theorem get_VFTABLE_multipleInheritanceImage (vs : List Int) (st : VFPTRS) (fuel : Nat)
    (hv : ∀ v ∈ vs, v ≠ 0) (hsize : 24 * (vs.length : Int) + 16 < 9223372036854775808)
    (hfuel : 2 * vs.length + 1 ≤ fuel) :
    get_VFTABLE fuel st (multipleInheritanceImage vs) (24 * (vs.length : Int) + 16)
      = Outcome.returned (filled (vs.take 5)) := by
  have hlen : ((layout 0 ((vs.map fun v => Region.root v []) ++ [Region.derived []])).length : Int)
      = 3 * (vs.length : Int) + 2 := by
    rw [← multipleInheritanceImage_eq_layout]
    simp [multipleInheritanceImage, baseSubobjects_length, ID.words]
  have h := get_VFTABLE_layout ((vs.map fun v => Region.root v []) ++ [Region.derived []]) st fuel
    (by rw [plainBases_append, plainBases_roots vs hv]; rfl)
    (closedByMarker_concat_derived _ _)
    (by rw [hlen]; omega)
    (by
      have : walkIterations ((vs.map fun v => Region.root v []) ++ [Region.derived []])
          = walkIterations (vs.map fun v => Region.root v []) + 1 := by
        simp [walkIterations, Region.iterations]
      rw [this, walkIterations_roots]; exact hfuel)
  rw [hlen, ← multipleInheritanceImage_eq_layout, vptrsOf_append, vptrsOf_roots] at h
  rw [show 24 * (vs.length : Int) + 16 = 8 * (3 * (vs.length : Int) + 2) by ring, h]
  simp [vptrsOf, addAll_new]

theorem chainSegments_eq_layout (ds : List (List Int)) : ∀ p : Int,
    chainSegments p ds = layout p (ds.map Region.derived) := by
  induction ds with
  | nil => intro p; rfl
  | cons d ds ih =>
    intro p
    simp only [chainSegments, List.map_cons, layout, Region.words, ID.words, ID.new, ih,
      List.cons_append, List.nil_append, List.length_cons, List.append_assoc]
    push_cast
    rw [show p + 8 * ((d.length : Int) + 1 + 1) = p + 16 + 8 * (d.length : Int) by ring]

theorem singleInheritanceImage_eq_layout (v : Int) (d : List Int) (ds : List (List Int)) :
    singleInheritanceImage v (d :: ds)
      = layout 0 (Region.root v d :: ds.map Region.derived) := by
  simp only [singleInheritanceImage, chainSegments, layout, Region.words, ID.words, ID.new,
    chainSegments_eq_layout, List.cons_append, List.nil_append, List.length_cons,
    List.append_assoc]
  push_cast
  rw [show (0 : Int) + 8 * ((d.length : Int) + 1 + 1 + 1) = 8 + 16 + 8 * (d.length : Int) by ring]
  rw [show (24 : Int) + 8 * (d.length : Int) = 8 + 16 + 8 * (d.length : Int) by ring]

theorem plainBases_deriveds (ds : List (List Int)) : ∀ p : Int,
    plainBases p (ds.map Region.derived) = true := by
  induction ds with
  | nil => intro p; rfl
  | cons d ds ih => intro p; simp [plainBases, ih]

theorem vptrsOf_deriveds (ds : List (List Int)) :
    vptrsOf (ds.map Region.derived) = [] := by
  induction ds with
  | nil => rfl
  | cons d ds ih => simp [vptrsOf, ih]

theorem walkIterations_deriveds (ds : List (List Int)) :
    walkIterations (ds.map Region.derived) = ds.length := by
  induction ds with
  | nil => rfl
  | cons d ds ih =>
    simp only [walkIterations, List.map_cons, List.sum_cons, Region.iterations,
      List.length_cons] at ih ⊢
    omega

theorem closedByMarker_chain (v : Int) (d : List Int) (ds : List (List Int)) :
    closedByMarker (Region.root v d :: ds.map Region.derived) = true := by
  rcases List.eq_nil_or_concat ds with h | ⟨init, last, h⟩
  · subst h; rfl
  · subst h
    have := closedByMarker_concat_derived (Region.root v d :: init.map Region.derived) last
    simpa using this

theorem get_VFTABLE_singleInheritanceImage (v : Int) (classes : List (List Int))
    (st : VFPTRS) (fuel : Nat) (hv : v ≠ 0) (hn : classes ≠ [])
    (hsize : 8 * ((singleInheritanceImage v classes).length : Int) < 9223372036854775808)
    (hfuel : classes.length + 1 ≤ fuel) :
    get_VFTABLE fuel st (singleInheritanceImage v classes)
        (8 * ((singleInheritanceImage v classes).length : Int))
      = Outcome.returned (filled [v]) := by
  cases classes with
  | nil => exact absurd rfl hn
  | cons d ds =>
    rw [singleInheritanceImage_eq_layout] at hsize ⊢
    have h := get_VFTABLE_layout (Region.root v d :: ds.map Region.derived) st fuel
      (by simp [plainBases, hv, plainBases_deriveds])
      (closedByMarker_chain v d ds) hsize
      (by
        have : walkIterations (Region.root v d :: ds.map Region.derived)
            = 2 + walkIterations (ds.map Region.derived) := by
          simp [walkIterations, Region.iterations]
        rw [this, walkIterations_deriveds]
        simp only [List.length_cons] at hfuel
        omega)
    rw [h]
    simp [vptrsOf, vptrsOf_deriveds, addAll_new]

/-! ## Claims C1 to C3: the inheritance scenarios -/

/-- C1. Multiple inheritance, order and count: for `k = vptrs.length` with
`1 <= k <= 5` and non-sentinel vtable pointers, the walk over the image of `k`
base sub-objects `[vptr_i, 0, 24]` followed by the marker `[0, 24k+16]`, with
top-level size `24k+16`, returns (with `2k+1` or more iterations allowed) a
collection of size `k` whose `i`-th entry is `vptr_i`: the vtable pointers in
memory order. -/
theorem multiple_inheritance_order_and_count (vptrs : List Int) (static_vftables : VFPTRS)
    (fuel : Nat) (hk1 : 1 ≤ vptrs.length) (hk5 : vptrs.length ≤ 5)
    (hv : ∀ v ∈ vptrs, v ≠ 0) (hfuel : 2 * vptrs.length + 1 ≤ fuel) :
    ∃ w : VFPTRS,
      get_VFTABLE fuel static_vftables (multipleInheritanceImage vptrs)
          (24 * (vptrs.length : Int) + 16) = Outcome.returned w
        ∧ w.size = (vptrs.length : Int)
        ∧ (∀ (i : Nat) (h : i < vptrs.length),
            w.get_VFTable (i : Int) = some (vptrs.get ⟨i, h⟩))
        ∧ w.entries = vptrs := by
  have htake : vptrs.take 5 = vptrs := List.take_of_length_le hk5
  refine ⟨filled vptrs, ?_, filled_size vptrs, fun i h => filled_get vptrs i h,
    filled_entries vptrs⟩
  have h := get_VFTABLE_multipleInheritanceImage vptrs static_vftables fuel hv (by omega) hfuel
  rw [htake] at h
  exact h

/-- Witness of C1 at `k = 2`: the two-base image `[4096, 0, 24, 8192, 0, 24, 0, 64]`
yields exactly `[4096, 8192]`. -/
theorem multiple_inheritance_order_and_count_witness :
    multipleInheritanceImage [4096, 8192] = [4096, 0, 24, 8192, 0, 24, 0, 64]
      ∧ ∃ w : VFPTRS,
        get_VFTABLE 5 (VFPTRS.new 10) (multipleInheritanceImage [4096, 8192])
            (24 * (([4096, 8192] : List Int).length : Int) + 16) = Outcome.returned w
          ∧ w.size = (([4096, 8192] : List Int).length : Int)
          ∧ (∀ (i : Nat) (h : i < ([4096, 8192] : List Int).length),
              w.get_VFTable (i : Int) = some (([4096, 8192] : List Int).get ⟨i, h⟩))
          ∧ w.entries = [4096, 8192] :=
  ⟨by decide,
    multiple_inheritance_order_and_count [4096, 8192] (VFPTRS.new 10) 5
      (by decide) (by decide) (by decide) (by decide)⟩

/-- C2. Single inheritance yields exactly one table: for a non-sentinel vtable
pointer `v` at offset 0 followed by the segments of a chain of
`n = classes.length >= 1` classes (class `j`'s marker `[0, s_j]` at offset
`s_(j-1)`, `s_0 = 8`, then arbitrary data words up to offset `s_j`), the walk
with top-level size `s_n` (the size of the image) returns, with `n+1` or more
iterations allowed, a collection of size 1 whose only entry is `v`. -/
theorem single_inheritance_one_table (v : Int) (classes : List (List Int))
    (static_vftables : VFPTRS) (fuel : Nat) (hv : v ≠ 0) (hn : 1 ≤ classes.length)
    (hsize : 8 * ((singleInheritanceImage v classes).length : Int) < 9223372036854775808)
    (hfuel : classes.length + 1 ≤ fuel) :
    ∃ w : VFPTRS,
      get_VFTABLE fuel static_vftables (singleInheritanceImage v classes)
          (8 * ((singleInheritanceImage v classes).length : Int)) = Outcome.returned w
        ∧ w.size = 1
        ∧ w.get_VFTable 0 = some v
        ∧ w.entries = [v] := by
  have hne : classes ≠ [] := by
    intro h; subst h; simp at hn
  exact ⟨filled [v],
    get_VFTABLE_singleInheritanceImage v classes static_vftables fuel hv hne hsize hfuel,
    rfl, rfl, filled_entries [v]⟩

/-- Witness of C2: the test's `Derived : Base` object, image `[v, 0, 24, 0, 40]`
scanned with top-level size 40. -/
theorem single_inheritance_one_table_witness :
    singleInheritanceImage 4198400 [[], []] = [4198400, 0, 24, 0, 40]
      ∧ 8 * ((singleInheritanceImage 4198400 [[], []]).length : Int) = 40
      ∧ ∃ w : VFPTRS,
        get_VFTABLE 3 (VFPTRS.new 10) (singleInheritanceImage 4198400 [[], []])
            (8 * ((singleInheritanceImage 4198400 [[], []]).length : Int))
            = Outcome.returned w
          ∧ w.size = 1
          ∧ w.get_VFTable 0 = some 4198400
          ∧ w.entries = [4198400] :=
  ⟨by decide, by decide,
    single_inheritance_one_table 4198400 [[], []] (VFPTRS.new 10) 3
      (by decide) (by decide) (by decide) (by decide)⟩

/-- C3. Capacity clamping: for `k = vptrs.length > 5` base sub-objects
`[vptr_i, 0, 24]` with non-sentinel pointers, followed by the marker
`[0, 24k+16]` (an object whose size fits a `long`), the walk returns, with
`2k+1` or more iterations allowed, a collection of size exactly 5 holding
`vptr_1 .. vptr_5` in that order; the result is a normal return, not a fault. -/
theorem capacity_clamping (vptrs : List Int) (static_vftables : VFPTRS) (fuel : Nat)
    (hk : 5 < vptrs.length) (hv : ∀ v ∈ vptrs, v ≠ 0)
    (hsize : 24 * (vptrs.length : Int) + 16 < 9223372036854775808)
    (hfuel : 2 * vptrs.length + 1 ≤ fuel) :
    ∃ w : VFPTRS,
      get_VFTABLE fuel static_vftables (multipleInheritanceImage vptrs)
          (24 * (vptrs.length : Int) + 16) = Outcome.returned w
        ∧ w.size = 5
        ∧ w.size = MAXSIZE
        ∧ w.entries = vptrs.take 5
        ∧ (∀ (i : Nat) (h : i < vptrs.length), i < 5 →
            w.get_VFTable (i : Int) = some (vptrs.get ⟨i, h⟩)) := by
  have hlen : (vptrs.take 5).length = 5 := by
    rw [List.length_take]; omega
  refine ⟨filled (vptrs.take 5),
    get_VFTABLE_multipleInheritanceImage vptrs static_vftables fuel hv hsize hfuel,
    ?_, ?_, filled_entries _, ?_⟩
  · rw [filled_size, hlen]; rfl
  · rw [filled_size, hlen]; rfl
  · intro i h hi
    have hi' : i < (vptrs.take 5).length := by omega
    rw [filled_get _ i hi']
    simp [List.getElem_take]

/-- Witness of C3 at `k = 6`: the sixth vtable pointer is discarded. -/
theorem capacity_clamping_witness :
    ∃ w : VFPTRS,
      get_VFTABLE 13 (VFPTRS.new 10) (multipleInheritanceImage [11, 22, 33, 44, 55, 66])
          (24 * (([11, 22, 33, 44, 55, 66] : List Int).length : Int) + 16)
          = Outcome.returned w
        ∧ w.size = 5
        ∧ w.size = MAXSIZE
        ∧ w.entries = ([11, 22, 33, 44, 55, 66] : List Int).take 5
        ∧ (∀ (i : Nat) (h : i < ([11, 22, 33, 44, 55, 66] : List Int).length), i < 5 →
            w.get_VFTable (i : Int) = some (([11, 22, 33, 44, 55, 66] : List Int).get ⟨i, h⟩)) :=
  capacity_clamping [11, 22, 33, 44, 55, 66] (VFPTRS.new 10) 13
    (by decide) (by decide) (by decide) (by decide)

/-! ## Claim C4: termination -/

theorem loop_stuck (w : VFPTRS) : ∀ fuel : Nat,
    loop [4096, 0, 24, 8192, 0, 32, 7, 0, 72] 72 fuel ⟨w, 32, 32⟩ = Outcome.outOfFuel := by
  intro fuel
  induction fuel with
  | zero => rfl
  | succ n ih =>
    have hstep : loopBody [4096, 0, 24, 8192, 0, 32, 7, 0, 72] 72 ⟨w, 32, 32⟩
        = Step.next ⟨w, 32, 32⟩ := by
      simp [loopBody, read, toULong, placeholder_id]
    rw [loop_succ_next _ _ _ _ _ hstep, ih]

/-- C4, the code at the failing input. `D : B1, B2` where `B1` is `{vptr, id}`
and `B2` is `{vptr, id, long}` with member value 7: every class plants its
marker first, the size fields are the `sizeof` of the classes (24, 32, 72), no
inspected non-marker word is 0. The walk reaches the marker of `B2` at offset
32 with `base_address = 24`, finds the size 32 neither equal to 72 nor to
`32 + 16 - 24`, sets `base_address = offset = 32`, and from then on repeats
the iteration at offset 32: `get_VFTABLE` never returns, whatever the number
of iterations. -/
theorem secondary_base_with_member_never_returns :
    get_VFTABLE 4 (VFPTRS.new 10) [4096, 0, 24, 8192, 0, 32, 7, 0, 72] 72
        = Outcome.outOfFuel
      ∧ loopBody [4096, 0, 24, 8192, 0, 32, 7, 0, 72] 72 ⟨filled [4096, 8192], 32, 32⟩
        = Step.next ⟨filled [4096, 8192], 32, 32⟩
      ∧ ¬ ∃ (fuel : Nat) (w : VFPTRS),
          get_VFTABLE fuel (VFPTRS.new 10) [4096, 0, 24, 8192, 0, 32, 7, 0, 72] 72
            = Outcome.returned w := by
  refine ⟨by decide, by decide, ?_⟩
  rintro ⟨fuel, w, h⟩
  have hrun : get_VFTABLE fuel (VFPTRS.new 10) [4096, 0, 24, 8192, 0, 32, 7, 0, 72] 72
      = Outcome.outOfFuel := by
    rcases fuel with _ | _ | _ | _ | n
    · rfl
    · rfl
    · rfl
    · rfl
    · have h4 : get_VFTABLE (n + 4) (VFPTRS.new 10) [4096, 0, 24, 8192, 0, 32, 7, 0, 72] 72
          = loop [4096, 0, 24, 8192, 0, 32, 7, 0, 72] 72 n
            ⟨filled [4096, 8192], 32, 32⟩ := by
        simp [get_VFTABLE, entryState, loop, loopBody, read, toULong, toLong, inLong,
          placeholder_id, VFPTRS.Init, VFPTRS.AddVFPTR, MAXSIZE, filled]
      rw [h4, loop_stuck]
  rw [hrun] at h
  exact Outcome.noConfusion h

/-! ## Claim C5: the static buffer is rebuilt on every call -/

/-- C5. Idempotence and freshness: whatever the prior state of the static
buffer, `get_VFTABLE` behaves as the walk started from the empty buffer of
capacity `MAXSIZE`, so its result depends on the object image and the top-level
size only; and a second call, which finds the first call's result in the static
buffer, returns the identical collection. -/
theorem walk_result_is_fresh (fuel : Nat) (prior other : VFPTRS) (img : List Int) (top : Int) :
    get_VFTABLE fuel prior img top = loop img top fuel ⟨filled [], 0, 0⟩
      ∧ get_VFTABLE fuel prior img top = get_VFTABLE fuel other img top
      ∧ (get_VFTABLE fuel prior img top).bind (fun first => get_VFTABLE fuel first img top)
          = get_VFTABLE fuel prior img top := by
  refine ⟨rfl, rfl, ?_⟩
  cases h : get_VFTABLE fuel prior img top with
  | returned w =>
    have hsame : get_VFTABLE fuel w img top = get_VFTABLE fuel prior img top := rfl
    simp [Outcome.bind, hsame, h]
  | fault => rfl
  | outOfFuel => rfl

/-! ## The loop body, case by case -/

theorem loopBody_of_unreadable (img : List Int) (top : Int) (s : WalkState)
    (h : read img s.offset = none) : loopBody img top s = Step.fault := by
  simp [loopBody, h]

theorem loopBody_of_vptr (img : List Int) (top : Int) (s : WalkState) (d : Int)
    (h : read img s.offset = some d) (hd : d ≠ 0) :
    loopBody img top s
      = Step.next ⟨(s.vftables.AddVFPTR d).2, s.base_address, toLong (s.offset + 8)⟩ := by
  simp [loopBody, h, placeholder_id, hd]

theorem loopBody_of_marker (img : List Int) (top : Int) (s : WalkState) (t : Int)
    (h : read img s.offset = some 0) (ht : read img (toULong (s.offset + 8)) = some t) :
    loopBody img top s = afterSizeField top s t := by
  simp [loopBody, h, placeholder_id, ht, afterSizeField]

theorem loopBody_of_cut_marker (img : List Int) (top : Int) (s : WalkState)
    (h : read img s.offset = some 0) (ht : read img (toULong (s.offset + 8)) = none) :
    loopBody img top s = Step.fault := by
  simp [loopBody, h, placeholder_id, ht]

theorem vptrOffsets_zero (img : List Int) (top : Int) (s : WalkState) :
    vptrOffsets img top 0 s = [] := rfl

theorem vptrOffsets_of_vptr (img : List Int) (top : Int) (fuel : Nat) (s : WalkState) (d : Int)
    (h : read img s.offset = some d) (hd : d ≠ 0) :
    vptrOffsets img top (fuel + 1) s
      = s.offset :: vptrOffsets img top fuel
          ⟨(s.vftables.AddVFPTR d).2, s.base_address, toLong (s.offset + 8)⟩ := by
  simp [vptrOffsets, states, loopBody_of_vptr img top s d h hd, recordedOffset, h,
    placeholder_id, hd]

theorem sizeFieldOffsets_of_vptr (img : List Int) (top : Int) (fuel : Nat) (s : WalkState)
    (d : Int) (h : read img s.offset = some d) (hd : d ≠ 0) :
    sizeFieldOffsets img top (fuel + 1) s
      = sizeFieldOffsets img top fuel
          ⟨(s.vftables.AddVFPTR d).2, s.base_address, toLong (s.offset + 8)⟩ := by
  simp [sizeFieldOffsets, states, loopBody_of_vptr img top s d h hd, sizeFieldOffset, h,
    placeholder_id, hd]

theorem vptrOffsets_of_marker (img : List Int) (top : Int) (fuel : Nat) (s : WalkState)
    (h : read img s.offset = some 0) :
    vptrOffsets img top (fuel + 1) s
      = match loopBody img top s with
        | Step.next s' => vptrOffsets img top fuel s'
        | Step.exit _ => []
        | Step.fault => [] := by
  cases hb : loopBody img top s <;>
    simp [vptrOffsets, states, hb, recordedOffset, h, placeholder_id]

theorem sizeFieldOffsets_of_marker (img : List Int) (top : Int) (fuel : Nat) (s : WalkState)
    (h : read img s.offset = some 0) :
    sizeFieldOffsets img top (fuel + 1) s
      = toULong (s.offset + 8) :: match loopBody img top s with
        | Step.next s' => sizeFieldOffsets img top fuel s'
        | Step.exit _ => []
        | Step.fault => [] := by
  cases hb : loopBody img top s <;>
    simp [sizeFieldOffsets, states, hb, sizeFieldOffset, h, placeholder_id]

/-- Every offset the walk takes for a vtable pointer holds a non-sentinel word. -/
theorem vptrOffsets_nonzero (img : List Int) (top : Int) (fuel : Nat) (s : WalkState) (o : Int)
    (ho : o ∈ vptrOffsets img top fuel s) : ∃ d, read img o = some d ∧ d ≠ 0 := by
  simp only [vptrOffsets, List.mem_filterMap] at ho
  obtain ⟨s', _, hs'⟩ := ho
  unfold recordedOffset at hs'
  cases hr : read img s'.offset with
  | none => simp [hr] at hs'
  | some d =>
    by_cases hd : d = 0
    · simp [hr, hd, placeholder_id] at hs'
    · simp [hr, hd, placeholder_id] at hs'
      subst hs'
      exact ⟨d, hr, hd⟩

/-- The buffer the walk returns is the entry buffer after `AddVFPTR` of every
word the walk took for a vtable pointer, in the order visited; the iteration
that exits records nothing. -/
theorem loop_returns_addAll (img : List Int) (top : Int) : ∀ (fuel : Nat) (s : WalkState)
    (w : VFPTRS), loop img top fuel s = Outcome.returned w →
      w = addAll s.vftables ((vptrOffsets img top fuel s).filterMap (read img))
        ∧ (vptrOffsets img top fuel s).length < fuel := by
  intro fuel
  induction fuel with
  | zero => intro s w h; simp [loop] at h
  | succ n ih =>
    intro s w h
    cases hr : read img s.offset with
    | none => simp [loop, loopBody_of_unreadable img top s hr] at h
    | some d =>
      by_cases hd : d = 0
      · subst hd
        rw [vptrOffsets_of_marker img top n s hr]
        cases hb : loopBody img top s with
        | fault => simp [loop, hb] at h
        | exit v =>
          simp only [loop, hb, Outcome.returned.injEq] at h
          subst h
          cases ht : read img (toULong (s.offset + 8)) with
          | none => simp [loopBody_of_cut_marker img top s hr ht] at hb
          | some t =>
            rw [loopBody_of_marker img top s t hr ht] at hb
            unfold afterSizeField at hb
            split_ifs at hb
            simp_all [addAll]
        | next s' =>
          rw [loop_succ_next _ _ _ _ _ hb] at h
          have hv : s'.vftables = s.vftables := by
            cases ht : read img (toULong (s.offset + 8)) with
            | none => simp [loopBody_of_cut_marker img top s hr ht] at hb
            | some t =>
              rw [loopBody_of_marker img top s t hr ht] at hb
              unfold afterSizeField at hb
              split_ifs at hb <;> simp_all
              all_goals (subst hb; rfl)
          obtain ⟨h1, h2⟩ := ih s' w h
          exact ⟨by simpa [hv] using h1, by simp only; omega⟩
      · rw [loop_succ_next _ _ _ _ _ (loopBody_of_vptr img top s d hr hd)] at h
        rw [vptrOffsets_of_vptr img top n s d hr hd]
        obtain ⟨h1, h2⟩ := ih _ w h
        exact ⟨by simpa [List.filterMap_cons, hr, addAll] using h1, by simp only [List.length_cons]; omega⟩

/-! ## Two images that differ in vtable-pointer words only -/

theorem read_congr (img₁ img₂ : List Int) (o : Int)
    (h : ∀ q ∈ wordsOf o, img₂[q]? = img₁[q]?) : read img₂ o = read img₁ o := by
  unfold wordsOf at h
  by_cases ha : o % 8 = 0
  · rw [if_pos ha] at h
    have h0 := h _ (List.mem_singleton_self _)
    simp only [read, ha, and_true, h0]
    by_cases hp : 0 ≤ o
    · rw [if_pos hp, if_pos hp]
    · rw [if_neg hp, if_neg hp, if_neg hp, if_neg hp]
  · rw [if_neg ha] at h
    have h0 := h (o / 8).toNat (by simp)
    have h1 := h ((o / 8).toNat + 1) (by simp)
    simp only [read, ha, and_false, if_false, h0, h1]

theorem states_next (img : List Int) (top : Int) (fuel : Nat) (s s' : WalkState)
    (h : loopBody img top s = Step.next s') :
    states img top (fuel + 1) s = s :: states img top fuel s' := by
  simp [states, h]

theorem mem_states_self (img : List Int) (top : Int) (fuel : Nat) (s : WalkState) :
    s ∈ states img top (fuel + 1) s := by
  simp [states]

theorem loop_simulation (img₁ img₂ : List Int) (top : Int) :
    ∀ (fuel : Nat) (w₁ w₂ : VFPTRS) (b o : Int),
      (∀ s ∈ states img₁ top fuel ⟨w₁, b, o⟩,
        (∀ d, read img₁ s.offset = some d → d ≠ 0 →
            ∃ d₂, read img₂ s.offset = some d₂ ∧ d₂ ≠ 0)
          ∧ (read img₁ s.offset = some 0 →
            read img₂ s.offset = some 0
              ∧ read img₂ (toULong (s.offset + 8)) = read img₁ (toULong (s.offset + 8)))) →
      ∀ r₁ : VFPTRS, loop img₁ top fuel ⟨w₁, b, o⟩ = Outcome.returned r₁ →
        (∃ r₂ : VFPTRS, loop img₂ top fuel ⟨w₂, b, o⟩ = Outcome.returned r₂)
          ∧ vptrOffsets img₂ top fuel ⟨w₂, b, o⟩ = vptrOffsets img₁ top fuel ⟨w₁, b, o⟩ := by
  intro fuel
  induction fuel with
  | zero => intro w₁ w₂ b o _ r₁ h; simp [loop] at h
  | succ n ih =>
    intro w₁ w₂ b o hst r₁ h
    obtain ⟨hvp, hmk⟩ := hst ⟨w₁, b, o⟩ (mem_states_self img₁ top n _)
    cases hr : read img₁ o with
    | none =>
      simp [loop, loopBody_of_unreadable img₁ top ⟨w₁, b, o⟩ hr] at h
    | some d =>
      by_cases hd : d = 0
      · subst hd
        obtain ⟨hr₂, hsize⟩ := hmk hr
        simp only at hr₂ hsize
        cases ht : read img₁ (toULong (o + 8)) with
        | none =>
          simp [loop, loopBody_of_cut_marker img₁ top ⟨w₁, b, o⟩ hr ht] at h
        | some t =>
          have hb₁ := loopBody_of_marker img₁ top ⟨w₁, b, o⟩ t hr ht
          have hb₂ := loopBody_of_marker img₂ top ⟨w₂, b, o⟩ t hr₂ (by rw [hsize, ht])
          rw [vptrOffsets_of_marker img₁ top n ⟨w₁, b, o⟩ hr,
            vptrOffsets_of_marker img₂ top n ⟨w₂, b, o⟩ hr₂]
          have hst' : ∀ s', loopBody img₁ top ⟨w₁, b, o⟩ = Step.next s' →
              ∀ s ∈ states img₁ top n s',
                (∀ d, read img₁ s.offset = some d → d ≠ 0 →
                    ∃ d₂, read img₂ s.offset = some d₂ ∧ d₂ ≠ 0)
                  ∧ (read img₁ s.offset = some 0 →
                    read img₂ s.offset = some 0
                      ∧ read img₂ (toULong (s.offset + 8))
                        = read img₁ (toULong (s.offset + 8))) := by
            intro s' hs' s hs
            apply hst s
            rw [states_next img₁ top n _ s' hs']
            exact List.mem_cons_of_mem _ hs
          rw [hb₁] at hst'
          simp only [loop, hb₁, hb₂] at h ⊢
          unfold afterSizeField at h hst' ⊢
          simp only at h hst' ⊢
          split_ifs at h hst' ⊢
          · exact ⟨⟨w₂, rfl⟩, rfl⟩
          · exact ih w₁ w₂ _ _ (hst' _ rfl) r₁ h
          · exact ih w₁ w₂ _ _ (hst' _ rfl) r₁ h
      · obtain ⟨d₂, hr₂, hd₂⟩ := hvp d hr hd
        simp only at hr₂
        have hb₁ := loopBody_of_vptr img₁ top ⟨w₁, b, o⟩ d hr hd
        rw [loop_succ_next _ _ _ _ _ hb₁] at h
        rw [loop_succ_next _ _ _ _ _ (loopBody_of_vptr img₂ top ⟨w₂, b, o⟩ d₂ hr₂ hd₂),
          vptrOffsets_of_vptr img₁ top n ⟨w₁, b, o⟩ d hr hd,
          vptrOffsets_of_vptr img₂ top n ⟨w₂, b, o⟩ d₂ hr₂ hd₂]
        have hst' : ∀ s ∈ states img₁ top n ⟨(w₁.AddVFPTR d).2, b, toLong (o + 8)⟩, _ :=
          fun s hs => hst s (by
            rw [states_next img₁ top n _ _ hb₁]
            exact List.mem_cons_of_mem _ hs)
        obtain ⟨hret, hoffs⟩ := ih _ (w₂.AddVFPTR d₂).2 _ _ hst' r₁ h
        exact ⟨hret, by rw [hoffs]⟩

/-! ## Claim C6: overriding changes table contents, not the tables found -/

theorem filterMap_read_all_some (img : List Int) (offs : List Int)
    (h : ∀ o ∈ offs, ∃ d, read img o = some d) :
    (offs.filterMap (read img)).map some = offs.map (read img) := by
  induction offs with
  | nil => rfl
  | cons o offs ih =>
    obtain ⟨d, hd⟩ := h o (List.mem_cons_self _ _)
    have := ih (fun x hx => h x (List.mem_cons_of_mem _ hx))
    simp [List.filterMap_cons, hd, this]

/-- The result of a returning walk, read off its trace: the buffer holds the
words at the first 5 offsets the walk took for vtable pointers. -/
theorem get_VFTABLE_entries (fuel : Nat) (st : VFPTRS) (img : List Int) (top : Int)
    (w : VFPTRS) (h : get_VFTABLE fuel st img top = Outcome.returned w) :
    w = filled (((vptrOffsets img top fuel (entryState st)).filterMap (read img)).take 5)
      ∧ w.entries.map some
        = ((vptrOffsets img top fuel (entryState st)).take 5).map (read img) := by
  have hw := (loop_returns_addAll img top fuel (entryState st) w h).1
  have hnew : (entryState st).vftables = VFPTRS.new MAXSIZE := rfl
  rw [hnew, addAll_new] at hw
  refine ⟨hw, ?_⟩
  rw [hw, filled_entries, List.map_take, List.map_take]
  congr 1
  exact filterMap_read_all_some img _ (fun o ho =>
    (vptrOffsets_nonzero img top fuel _ o ho).imp fun _ hd => hd.1)

theorem mem_vptrOffsets_of_state (img : List Int) (top : Int) (fuel : Nat) (s₀ s : WalkState)
    (d : Int) (hs : s ∈ states img top fuel s₀) (hr : read img s.offset = some d) (hd : d ≠ 0) :
    s.offset ∈ vptrOffsets img top fuel s₀ :=
  List.mem_filterMap.mpr ⟨s, hs, by simp [recordedOffset, hr, placeholder_id, hd]⟩

theorem mem_tagOffsets_of_state (img : List Int) (top : Int) (fuel : Nat) (s₀ s : WalkState)
    (hs : s ∈ states img top fuel s₀) (hr : read img s.offset = some 0) :
    s.offset ∈ tagOffsets img top fuel s₀ :=
  List.mem_filterMap.mpr ⟨s, hs, by simp [tagOffset, hr, placeholder_id]⟩

theorem mem_sizeFieldOffsets_of_state (img : List Int) (top : Int) (fuel : Nat)
    (s₀ s : WalkState) (hs : s ∈ states img top fuel s₀) (hr : read img s.offset = some 0) :
    toULong (s.offset + 8) ∈ sizeFieldOffsets img top fuel s₀ :=
  List.mem_filterMap.mpr ⟨s, hs, by simp [sizeFieldOffset, hr, placeholder_id]⟩

/-- The walk over `[4294971392, 0, 4, 0, 17179869184]` with top-level size
17179869184 runs through the cursors (0, 0), (0, 8), (4, 4), (4, 12), (4, 20)
and back to (0, 0), whatever the buffer holds. -/
theorem loop_cycle : ∀ (fuel : Nat) (w : VFPTRS),
    loop [4294971392, 0, 4, 0, 17179869184] 17179869184 fuel ⟨w, 0, 0⟩ = Outcome.outOfFuel
      ∧ loop [4294971392, 0, 4, 0, 17179869184] 17179869184 fuel ⟨w, 0, 8⟩ = Outcome.outOfFuel
      ∧ loop [4294971392, 0, 4, 0, 17179869184] 17179869184 fuel ⟨w, 4, 4⟩ = Outcome.outOfFuel
      ∧ loop [4294971392, 0, 4, 0, 17179869184] 17179869184 fuel ⟨w, 4, 12⟩ = Outcome.outOfFuel
      ∧ loop [4294971392, 0, 4, 0, 17179869184] 17179869184 fuel ⟨w, 4, 20⟩
          = Outcome.outOfFuel := by
  intro fuel
  induction fuel with
  | zero => intro w; exact ⟨rfl, rfl, rfl, rfl, rfl⟩
  | succ n ih =>
    intro w
    have h00 : loopBody [4294971392, 0, 4, 0, 17179869184] 17179869184 ⟨w, 0, 0⟩
        = Step.next ⟨(w.AddVFPTR 4294971392).2, 0, 8⟩ :=
      loopBody_of_vptr _ _ ⟨w, 0, 0⟩ 4294971392
        (show read [4294971392, 0, 4, 0, 17179869184] 0 = some 4294971392 by decide)
        (by decide)
    have h08 : loopBody [4294971392, 0, 4, 0, 17179869184] 17179869184 ⟨w, 0, 8⟩
        = Step.next ⟨w, 4, 4⟩ := by
      rw [loopBody_of_marker _ _ ⟨w, 0, 8⟩ 4
        (show read [4294971392, 0, 4, 0, 17179869184] 8 = some 0 by decide)
        (show read [4294971392, 0, 4, 0, 17179869184] (toULong (8 + 8)) = some 4 by decide)]
      rfl
    have h44 : loopBody [4294971392, 0, 4, 0, 17179869184] 17179869184 ⟨w, 4, 4⟩
        = Step.next ⟨(w.AddVFPTR 1).2, 4, 12⟩ :=
      loopBody_of_vptr _ _ ⟨w, 4, 4⟩ 1
        (show read [4294971392, 0, 4, 0, 17179869184] 4 = some 1 by decide)
        (by decide)
    have h412 : loopBody [4294971392, 0, 4, 0, 17179869184] 17179869184 ⟨w, 4, 12⟩
        = Step.next ⟨(w.AddVFPTR 17179869184).2, 4, 20⟩ :=
      loopBody_of_vptr _ _ ⟨w, 4, 12⟩ 17179869184
        (show read [4294971392, 0, 4, 0, 17179869184] 12 = some 17179869184 by decide)
        (by decide)
    have h420 : loopBody [4294971392, 0, 4, 0, 17179869184] 17179869184 ⟨w, 4, 20⟩
        = Step.next ⟨w, 0, 0⟩ := by
      rw [loopBody_of_marker _ _ ⟨w, 4, 20⟩ 0
        (show read [4294971392, 0, 4, 0, 17179869184] 20 = some 0 by decide)
        (show read [4294971392, 0, 4, 0, 17179869184] (toULong (20 + 8)) = some 0 by decide)]
      rfl
    refine ⟨?_, ?_, ?_, ?_, ?_⟩
    · rw [loop_succ_next _ _ _ _ _ h00]; exact (ih _).2.1
    · rw [loop_succ_next _ _ _ _ _ h08]; exact (ih _).2.2.1
    · rw [loop_succ_next _ _ _ _ _ h44]; exact (ih _).2.2.2.1
    · rw [loop_succ_next _ _ _ _ _ h412]; exact (ih _).2.2.2.2
    · rw [loop_succ_next _ _ _ _ _ h420]; exact (ih _).1

/-- Counterexample to C6 as stated. The images `[4096, 0, 4, 0, 17179869184]` and
`[4294971392, 0, 4, 0, 17179869184]` (the marker `id` of the pointer's static
type at byte offset 24, so that both hold the top-level size 17179869184 at
offset 32) differ in word 0 only. The walk on the first records that word as
its one vtable pointer, the word is non-sentinel in both images, and neither of
the size-field loads of that walk (offsets 16 and 12) takes a byte from it. The
first walk returns one table; the second never returns: the misaligned load at
offset 4, a marker tag in the first image, takes its low half from word 0. -/
theorem overriding_counterexample :
    read [4096, 0, 4, 0, 17179869184] (24 + 8) = some 17179869184
      ∧ read [4294971392, 0, 4, 0, 17179869184] (24 + 8) = some 17179869184
      ∧ get_VFTABLE 3 (VFPTRS.new 10) [4096, 0, 4, 0, 17179869184] 17179869184
          = Outcome.returned (filled [4096])
      ∧ (∀ q : Nat, [4294971392, 0, 4, 0, 17179869184][q]? ≠ [4096, 0, 4, 0, 17179869184][q]?
          → q = 0)
      ∧ vptrOffsets [4096, 0, 4, 0, 17179869184] 17179869184 3 (entryState (VFPTRS.new 10))
          = [0]
      ∧ read [4096, 0, 4, 0, 17179869184] 0 = some 4096
      ∧ read [4294971392, 0, 4, 0, 17179869184] 0 = some 4294971392
      ∧ sizeFieldOffsets [4096, 0, 4, 0, 17179869184] 17179869184 3
          (entryState (VFPTRS.new 10)) = [16, 12]
      ∧ (∀ o ∈ [(16 : Int), 12], 0 ∉ wordsOf o)
      ∧ tagOffsets [4096, 0, 4, 0, 17179869184] 17179869184 3 (entryState (VFPTRS.new 10))
          = [8, 4]
      ∧ 0 ∈ wordsOf 4
      ∧ ¬ ∃ (fuel : Nat) (w : VFPTRS),
          get_VFTABLE fuel (VFPTRS.new 10) [4294971392, 0, 4, 0, 17179869184] 17179869184
            = Outcome.returned w := by
  refine ⟨by decide, by decide, by decide, ?_, by decide, by decide, by decide, by decide,
    by decide, by decide, by decide, ?_⟩
  · intro q hq
    match q, hq with
    | 0, _ => rfl
    | q + 1, hq => exact absurd rfl hq
  · rintro ⟨fuel, w, h⟩
    have hc := (loop_cycle fuel (entryState (VFPTRS.new 10)).vftables).1
    have h' : loop [4294971392, 0, 4, 0, 17179869184] 17179869184 fuel
        ⟨(entryState (VFPTRS.new 10)).vftables, 0, 0⟩ = Outcome.returned w := h
    rw [hc] at h'
    exact Outcome.noConfusion h'

/-- C6, amended. Overriding does not change the number of tables: let two
images hold the same top-level size `ptr->id.sizeofclass` (at `id_offset + 8`),
and let every image word in which they differ be covered by a load that the walk
on the first image records as a vtable pointer, and by none of its loads of a
marker tag, of a marker size field or of the top-level size; let the second
image hold a non-sentinel value at every load the first walk records. Then
whenever `get_VFTABLE` returns on the first image it returns on the second, with
a collection of the same size, and the entries of both results are the values
their images hold at the same offsets. -/
theorem overriding_keeps_tables (img₁ img₂ : List Int) (id_offset top : Int)
    (static_vftables : VFPTRS) (fuel : Nat) (w₁ : VFPTRS)
    (htop : read img₁ (id_offset + 8) = some top)
    (hterm : get_VFTABLE fuel static_vftables img₁ top = Outcome.returned w₁)
    (hdiff : ∀ q : Nat, img₂[q]? ≠ img₁[q]? →
      (∃ o ∈ vptrOffsets img₁ top fuel (entryState static_vftables), q ∈ wordsOf o)
        ∧ ∀ o ∈ tagOffsets img₁ top fuel (entryState static_vftables)
              ++ sizeFieldOffsets img₁ top fuel (entryState static_vftables)
              ++ [id_offset + 8],
            q ∉ wordsOf o)
    (hrec : ∀ o ∈ vptrOffsets img₁ top fuel (entryState static_vftables),
      read img₂ o ≠ none ∧ read img₂ o ≠ some 0) :
    read img₂ (id_offset + 8) = some top
      ∧ ∃ w₂ : VFPTRS,
        get_VFTABLE fuel static_vftables img₂ top = Outcome.returned w₂
          ∧ w₂.size = w₁.size
          ∧ w₁.entries.map some
            = ((vptrOffsets img₁ top fuel (entryState static_vftables)).take 5).map (read img₁)
          ∧ w₂.entries.map some
            = ((vptrOffsets img₁ top fuel (entryState static_vftables)).take 5).map
                (read img₂) := by
  have hsame : ∀ o ∈ tagOffsets img₁ top fuel (entryState static_vftables)
        ++ sizeFieldOffsets img₁ top fuel (entryState static_vftables) ++ [id_offset + 8],
      read img₂ o = read img₁ o := by
    intro o ho
    apply read_congr
    intro q hq
    by_contra hne
    exact (hdiff q hne).2 o ho hq
  have hst : ∀ s ∈ states img₁ top fuel
        ⟨(entryState static_vftables).vftables, 0, 0⟩,
      (∀ d, read img₁ s.offset = some d → d ≠ 0 →
          ∃ d₂, read img₂ s.offset = some d₂ ∧ d₂ ≠ 0)
        ∧ (read img₁ s.offset = some 0 →
          read img₂ s.offset = some 0
            ∧ read img₂ (toULong (s.offset + 8)) = read img₁ (toULong (s.offset + 8))) := by
    intro s hs
    constructor
    · intro d hr hd
      obtain ⟨h1, h2⟩ := hrec s.offset (mem_vptrOffsets_of_state img₁ top fuel _ s d hs hr hd)
      cases hr₂ : read img₂ s.offset with
      | none => exact absurd hr₂ h1
      | some d₂ => exact ⟨d₂, rfl, fun h0 => h2 (by rw [hr₂, h0])⟩
    · intro hr
      constructor
      · rw [hsame s.offset (by
          simp only [List.mem_append]
          exact Or.inl (Or.inl (mem_tagOffsets_of_state img₁ top fuel _ s hs hr))), hr]
      · exact hsame _ (by
          simp only [List.mem_append]
          exact Or.inl (Or.inr (mem_sizeFieldOffsets_of_state img₁ top fuel _ s hs hr)))
  obtain ⟨⟨w₂, hret⟩, hoffs⟩ := loop_simulation img₁ img₂ top fuel
    (entryState static_vftables).vftables (entryState static_vftables).vftables 0 0 hst w₁ hterm
  have hret' : get_VFTABLE fuel static_vftables img₂ top = Outcome.returned w₂ := hret
  have hoffs' : vptrOffsets img₂ top fuel (entryState static_vftables)
      = vptrOffsets img₁ top fuel (entryState static_vftables) := hoffs
  obtain ⟨_, he₁⟩ := get_VFTABLE_entries fuel static_vftables img₁ top w₁ hterm
  obtain ⟨_, he₂⟩ := get_VFTABLE_entries fuel static_vftables img₂ top w₂ hret'
  rw [hoffs'] at he₂
  refine ⟨by rw [hsame _ (by simp), htop], w₂, hret', ?_, he₁, he₂⟩
  have hl₁ := congrArg List.length he₁
  have hl₂ := congrArg List.length he₂
  simp only [List.length_map] at hl₁ hl₂
  obtain ⟨hf₁, _⟩ := get_VFTABLE_entries fuel static_vftables img₁ top w₁ hterm
  obtain ⟨hf₂, _⟩ := get_VFTABLE_entries fuel static_vftables img₂ top w₂ hret'
  have hs₁ : w₁.size = (w₁.entries.length : Int) := by
    rw [hf₁, filled_size, filled_entries]
  have hs₂ : w₂.size = (w₂.entries.length : Int) := by
    rw [hf₂, filled_size, filled_entries]
  rw [hs₁, hs₂, hl₁, hl₂]

/-- Witness of C6: `Derived` overrides a function of `Base`, so the object's
vtable pointer is 5000 instead of 4096; the marker of `Derived` is at byte
offset 24 and holds the top-level size 40 in both images. One table is found in
both, at offset 0. -/
theorem overriding_keeps_tables_witness :
    read [5000, 0, 24, 0, 40] (24 + 8) = some 40
      ∧ ∃ w₂ : VFPTRS,
        get_VFTABLE 3 (VFPTRS.new 10) [5000, 0, 24, 0, 40] 40 = Outcome.returned w₂
          ∧ w₂.size = (filled [4096]).size
          ∧ (filled [4096]).entries.map some
            = ((vptrOffsets [4096, 0, 24, 0, 40] 40 3 (entryState (VFPTRS.new 10))).take 5).map
                (read [4096, 0, 24, 0, 40])
          ∧ w₂.entries.map some
            = ((vptrOffsets [4096, 0, 24, 0, 40] 40 3 (entryState (VFPTRS.new 10))).take 5).map
                (read [5000, 0, 24, 0, 40]) :=
  overriding_keeps_tables [4096, 0, 24, 0, 40] [5000, 0, 24, 0, 40] 24 40 (VFPTRS.new 10) 3
    (filled [4096]) (by decide) (by decide)
    (fun q hq => by
      match q, hq with
      | 0, _ => exact ⟨by decide, by decide⟩
      | q + 1, hq => exact absurd rfl hq)
    (by decide)

/-! ## Claims C7 and C8: `PrintVFTable` -/

theorem PrintVFTable_loop_returns (mem : Memory) (vftable : Int) : ∀ (n fuel : Nat) (i : Int),
    (∀ j : Nat, j < n →
      mem.readPtr (vftable + 8 * (i + j)) ≠ 0
        ∧ (mem.readU32 (mem.readPtr (vftable + 8 * (i + j)))).isSome = true
        ∧ mem.returns (mem.readPtr (vftable + 8 * (i + j))) = true) →
    mem.readPtr (vftable + 8 * (i + n)) = 0 →
    i + n ≤ 2147483647 →
    n < fuel →
    PrintVFTable.loop mem vftable fuel i = Outcome.returned (entryEvents mem vftable i n) := by
  intro n
  induction n with
  | zero =>
    intro fuel i _ hnull _ hfuel
    obtain ⟨f, rfl⟩ : ∃ f, fuel = f + 1 := ⟨fuel - 1, by omega⟩
    have h0 : mem.readPtr (vftable + 8 * i) = 0 := by simpa using hnull
    simp [PrintVFTable.loop, h0, entryEvents]
  | succ n ih =>
    intro fuel i hnon hnull hint hfuel
    obtain ⟨f, rfl⟩ : ∃ f, fuel = f + 1 := ⟨fuel - 1, by omega⟩
    obtain ⟨h0, hread, hret⟩ : mem.readPtr (vftable + 8 * i) ≠ 0
        ∧ (mem.readU32 (mem.readPtr (vftable + 8 * i))).isSome = true
        ∧ mem.returns (mem.readPtr (vftable + 8 * i)) = true := by
      simpa using hnon 0 (by omega)
    obtain ⟨x, hx⟩ := Option.isSome_iff_exists.mp hread
    have hi : i < 2147483647 := by push_cast at hint; omega
    have hrest := ih f (i + 1)
      (fun j hj => by
        have := hnon (j + 1) (by omega)
        rw [show i + 1 + (j : Int) = i + ((j + 1 : Nat) : Int) by push_cast; ring]
        exact this)
      (by
        rw [show i + 1 + (n : Int) = i + ((n + 1 : Nat) : Int) by push_cast; ring]
        exact hnull)
      (by push_cast at hint; omega)
      (by omega)
    simp [PrintVFTable.loop, h0, hx, hret, hi, hrest, Outcome.bind, entryEvents]

/-- On a table that is terminated after `n` callable entries `PrintVFTable`
returns the table line, the events of the `n` entries and the closing
newline. -/
theorem PrintVFTable_of_terminatedTable (fuel : Nat) (mem : Memory) (vftable : Int) (n : Nat)
    (htable : terminatedTable mem vftable n) (hfuel : n < fuel) :
    PrintVFTable fuel mem vftable
      = Outcome.returned (Out.table vftable :: entryEvents mem vftable 0 n ++ [Out.newline]) := by
  obtain ⟨hentries, hnull, hint⟩ := htable
  have hloop := PrintVFTable_loop_returns mem vftable n fuel 0
    (fun j hj => by simpa using hentries j hj) (by simpa using hnull) (by simpa using hint) hfuel
  simp [PrintVFTable, hloop, Outcome.bind]

theorem reportedEntries_entryEvents (mem : Memory) (vftable : Int) : ∀ (n : Nat) (i : Int)
    (tail : List Out),
    reportedEntries (entryEvents mem vftable i n ++ tail)
      = ((List.range n).map fun j : Nat =>
          (i + (j : Int),
            (mem.readU32 (mem.readPtr (vftable + 8 * (i + (j : Int))))).getD 0))
        ++ reportedEntries tail := by
  intro n
  induction n with
  | zero => intro i tail; simp [entryEvents]
  | succ n ih =>
    intro i tail
    have e : entryEvents mem vftable i (n + 1) ++ tail
        = Out.index i ((mem.readU32 (mem.readPtr (vftable + 8 * i))).getD 0)
          :: Out.call (mem.readPtr (vftable + 8 * i))
          :: Out.newline
          :: (entryEvents mem vftable (i + 1) n ++ tail) := rfl
    rw [e]
    simp only [reportedEntries]
    rw [ih, List.range_succ_eq_map]
    simp only [List.map_cons, List.map_map, Nat.cast_zero, add_zero, List.cons_append]
    congr 2
    apply List.map_congr_left
    intro j _
    simp only [Function.comp, Nat.succ_eq_add_one]
    push_cast
    rw [show i + 1 + (j : Int) = i + ((j : Int) + 1) by ring]

theorem PrintVFTable_unterminated (n : Nat) :
    PrintVFTable (n + 3) exampleMemory 6000 = Outcome.fault := by
  simp [PrintVFTable, PrintVFTable.loop, exampleMemory, Outcome.bind]

/-- C7, counterexample. The table at 6000 of `exampleMemory`, the first table
of a class with two vtabled bases: its first null entry is at index 5 and the
entries 0 to 4 are non-null, but entry 2 is the offset -24, not a function.
`PrintVFTable` loads from address -24 at index 2 and faults there, so it does
not report the 5 entries. -/
theorem enumeration_counterexample :
    (∀ j : Nat, j < 5 → exampleMemory.readPtr (6000 + 8 * (j : Int)) ≠ 0)
      ∧ exampleMemory.readPtr (6000 + 8 * ((5 : Nat) : Int)) = 0
      ∧ exampleMemory.readPtr (6000 + 8 * ((2 : Nat) : Int)) = -24
      ∧ exampleMemory.readU32 (-24) = none
      ∧ PrintVFTable 6 exampleMemory 6000 = Outcome.fault
      ∧ ¬ ∃ (fuel : Nat) (out : List Out),
          PrintVFTable fuel exampleMemory 6000 = Outcome.returned out := by
  refine ⟨by decide, by decide, by decide, by decide, by decide, ?_⟩
  rintro ⟨fuel, out, h⟩
  rcases fuel with _ | _ | _ | n
  · have h0 : PrintVFTable 0 exampleMemory 6000 = Outcome.outOfFuel := by decide
    rw [h0] at h
    exact Outcome.noConfusion h
  · have h1 : PrintVFTable 1 exampleMemory 6000 = Outcome.outOfFuel := by decide
    rw [h1] at h
    exact Outcome.noConfusion h
  · have h2 : PrintVFTable 2 exampleMemory 6000 = Outcome.outOfFuel := by decide
    rw [h2] at h
    exact Outcome.noConfusion h
  · rw [PrintVFTable_unterminated n] at h
    exact Outcome.noConfusion h

/-- C7, amended. Table enumeration stops at the first null: for a vtable whose
entries `0 .. n-1` are addresses of readable functions that come back when
called without arguments, whose entry `n` is null, with `n` a value of `int`,
`PrintVFTable` returns (with more than `n` iterations allowed) after the table
line, the events of the entries `0 .. n-1` and the closing newline; the entry
lines it prints carry exactly the indices `0, 1, ..., n-1` in increasing order;
for `n = 0` there is no entry line. -/
theorem enumeration_stops_at_first_null (mem : Memory) (vftable : Int) (n fuel : Nat)
    (htable : terminatedTable mem vftable n) (hfuel : n < fuel) :
    ∃ out : List Out,
      PrintVFTable fuel mem vftable = Outcome.returned out
        ∧ out = Out.table vftable :: entryEvents mem vftable 0 n ++ [Out.newline]
        ∧ (reportedEntries out).map Prod.fst = (List.range n).map (fun j : Nat => (j : Int))
        ∧ (reportedEntries out).length = n := by
  have hrep : reportedEntries (Out.table vftable :: entryEvents mem vftable 0 n ++ [Out.newline])
      = (List.range n).map fun j : Nat =>
          (((j : Nat) : Int),
            (mem.readU32 (mem.readPtr (vftable + 8 * (j : Int)))).getD 0) := by
    have := reportedEntries_entryEvents mem vftable n 0 [Out.newline]
    simpa [reportedEntries] using this
  refine ⟨_, PrintVFTable_of_terminatedTable fuel mem vftable n htable hfuel, rfl, ?_, ?_⟩
  · rw [hrep]; simp [List.map_map, Function.comp]
  · rw [hrep]; simp

theorem terminatedTable_4096 : terminatedTable exampleMemory 4096 1 := by
  refine ⟨fun j hj => ?_, by decide, by decide⟩
  have h0 : j = 0 := by omega
  subst h0
  decide

theorem terminatedTable_5000 : terminatedTable exampleMemory 5000 2 := by
  refine ⟨fun j hj => ?_, by decide, by decide⟩
  have h : j = 0 ∨ j = 1 := by omega
  rcases h with h | h <;> subst h <;> decide

/-- Witness of the amended C7: the null-terminated two-entry table at 5000 of
`exampleMemory`. -/
theorem enumeration_stops_at_first_null_witness :
    ∃ out : List Out,
      PrintVFTable 3 exampleMemory 5000 = Outcome.returned out
        ∧ out = Out.table 5000 :: entryEvents exampleMemory 5000 0 2 ++ [Out.newline]
        ∧ (reportedEntries out).map Prod.fst = (List.range 2).map (fun j : Nat => (j : Int))
        ∧ (reportedEntries out).length = 2 :=
  enumeration_stops_at_first_null exampleMemory 5000 2 3 terminatedTable_5000 (by decide)

/-- C8, the code at the failing input. For the table at 4096 whose slot 0 holds
the function address 8192, `PrintVFTable` prints next to index 0 the
`unsigned int` stored at address 8192 (`0xE5894855`), not the address 8192
stored in the slot. -/
theorem reported_value_is_not_the_address :
    exampleMemory.readPtr (4096 + 8 * 0) = 8192
      ∧ PrintVFTable 2 exampleMemory 4096
        = Outcome.returned
            [Out.table 4096, Out.index 0 3850979413, Out.call 8192, Out.newline, Out.newline]
      ∧ reportedEntries
          [Out.table 4096, Out.index 0 3850979413, Out.call 8192, Out.newline, Out.newline]
        = [(0, 3850979413)]
      ∧ (3850979413 : Int) ≠ 8192 := by
  refine ⟨by decide, by decide, by decide, by decide⟩

/-! ## Claims C9 and C10: `PrintClassAll_VFTABLE` -/

/-- Every returning walk leaves a buffer of capacity 5 that holds exactly its
entries. -/
theorem get_VFTABLE_filled (fuel : Nat) (st : VFPTRS) (img : List Int) (top : Int)
    (w : VFPTRS) (h : get_VFTABLE fuel st img top = Outcome.returned w) :
    w = filled w.entries ∧ w.entries.length ≤ 5 ∧ w.entries.length < fuel := by
  obtain ⟨hw, _⟩ := get_VFTABLE_entries fuel st img top w h
  have hlen := (loop_returns_addAll img top fuel (entryState st) w h).2
  have hfm := List.length_filterMap_le (read img) (vptrOffsets img top fuel (entryState st))
  have he : w.entries
      = ((vptrOffsets img top fuel (entryState st)).filterMap (read img)).take 5 := by
    rw [hw, filled_entries]
  rw [he]
  refine ⟨hw, by simp [List.length_take], ?_⟩
  rw [List.length_take]
  omega

theorem get_VFTABLE_fuel_pos (fuel : Nat) (st : VFPTRS) (img : List Int) (top : Int)
    (w : VFPTRS) (h : get_VFTABLE fuel st img top = Outcome.returned w) : 0 < fuel := by
  cases fuel with
  | zero => simp [get_VFTABLE, loop] at h
  | succ n => omega

theorem renderedTables_append (xs ys : List Out) :
    renderedTables (xs ++ ys) = renderedTables xs ++ renderedTables ys := by
  induction xs with
  | nil => rfl
  | cons x xs ih => cases x <;> simp [renderedTables, ih]

theorem PrintVFTable_loop_no_table (mem : Memory) (vftable : Int) : ∀ (fuel : Nat) (i : Int)
    (body : List Out), PrintVFTable.loop mem vftable fuel i = Outcome.returned body →
      renderedTables body = [] := by
  intro fuel
  induction fuel with
  | zero => intro i body h; simp [PrintVFTable.loop] at h
  | succ n ih =>
    intro i body h
    by_cases h0 : mem.readPtr (vftable + 8 * i) = 0
    · simp [PrintVFTable.loop, h0] at h
      subst h; rfl
    · cases hx : mem.readU32 (mem.readPtr (vftable + 8 * i)) with
      | none => simp [PrintVFTable.loop, h0, hx] at h
      | some x =>
        by_cases hret : mem.returns (mem.readPtr (vftable + 8 * i)) = true
        · by_cases hi : i < 2147483647
          · cases hrest : PrintVFTable.loop mem vftable n (i + 1) with
            | returned rest =>
              simp [PrintVFTable.loop, h0, hx, hret, hi, hrest, Outcome.bind] at h
              subst h
              simp [renderedTables, ih (i + 1) rest hrest]
            | fault => simp [PrintVFTable.loop, h0, hx, hret, hi, hrest, Outcome.bind] at h
            | outOfFuel => simp [PrintVFTable.loop, h0, hx, hret, hi, hrest, Outcome.bind] at h
          · simp [PrintVFTable.loop, h0, hx, hret, hi] at h
        · simp [PrintVFTable.loop, h0, hx, hret] at h

/-- One `PrintVFTable` call announces exactly the table it is given. -/
theorem PrintVFTable_renders_one (fuel : Nat) (mem : Memory) (vftable : Int) (out : List Out)
    (h : PrintVFTable fuel mem vftable = Outcome.returned out) :
    renderedTables out = [vftable] := by
  unfold PrintVFTable at h
  cases hbody : PrintVFTable.loop mem vftable fuel 0 with
  | returned body =>
    simp [hbody, Outcome.bind] at h
    subst h
    simp [renderedTables, renderedTables_append, PrintVFTable_loop_no_table mem vftable fuel 0 body hbody]
  | fault => simp [hbody, Outcome.bind] at h
  | outOfFuel => simp [hbody, Outcome.bind] at h

theorem PrintClassAll_loop_returns (fuel : Nat) (mem : Memory) : ∀ (rest done : List Int)
    (outs : List (List Out)) (n : Nat),
    List.Forall₂ (fun t out => PrintVFTable fuel mem t = Outcome.returned out) rest outs →
    rest.length < n →
    PrintClassAll_VFTABLE.loop fuel mem (filled (done ++ rest)) n (done.length : Int)
      = Outcome.returned outs.flatten := by
  intro rest
  induction rest with
  | nil =>
    intro done outs n hall hn
    cases hall
    obtain ⟨m, rfl⟩ : ∃ m, n = m + 1 := ⟨n - 1, by omega⟩
    simp [PrintClassAll_VFTABLE.loop, filled_size]
  | cons t rest ih =>
    intro done outs n hall hn
    cases hall with
    | cons hhead htail =>
      rename_i out outs'
      obtain ⟨m, rfl⟩ : ∃ m, n = m + 1 := ⟨n - 1, by omega⟩
      have hlt : (done.length : Int) < (filled (done ++ t :: rest)).size := by
        rw [filled_size]; simp
      have hget : (filled (done ++ t :: rest)).get_VFTable (done.length : Int) = some t := by
        have h0 := getElem?_after_front done
          (t :: rest ++ List.replicate (5 - (done ++ t :: rest).length) 0) 0
        simp only [VFPTRS.get_VFTable, filled, Int.toNat_ofNat, List.append_assoc]
        simpa using h0
      have hnext := ih (done ++ [t]) outs' m htail (by simp at hn; omega)
      rw [List.append_assoc, List.singleton_append] at hnext
      have hcast : ((done ++ [t]).length : Int) = (done.length : Int) + 1 := by simp
      rw [hcast] at hnext
      simp [PrintClassAll_VFTABLE.loop, hlt, hget, hhead, hnext, Outcome.bind]

/-- C9, counterexample. On the image `[0, 16]` with top-level size 16 the walk
returns the empty collection, yet `PrintClassAll_VFTABLE` emits the object
header line. -/
theorem empty_collection_counterexample :
    get_VFTABLE 1 (VFPTRS.new 10) [0, 16] 16 = Outcome.returned (filled [])
      ∧ (filled []).size = 0
      ∧ PrintClassAll_VFTABLE 1 exampleMemory (VFPTRS.new 10) 77 [0, 16] 16
        = Outcome.returned [Out.object 77 0]
      ∧ PrintClassAll_VFTABLE 1 exampleMemory (VFPTRS.new 10) 77 [0, 16] 16
        ≠ Outcome.returned [] := by
  refine ⟨by decide, by decide, by decide, by decide⟩

/-- C9, amended. For every object on which `get_VFTABLE` returns an empty
collection, `PrintClassAll_VFTABLE` returns normally having emitted exactly one
event, the object header line stating 0 tables: no table is rendered. The
collection's own printer `VFPTRS::Print` emits nothing. -/
theorem empty_collection_prints_header_only (fuel : Nat) (mem : Memory)
    (static_vftables : VFPTRS) (p : Int) (img : List Int) (top : Int) (w : VFPTRS)
    (hwalk : get_VFTABLE fuel static_vftables img top = Outcome.returned w)
    (hempty : w.size = 0) :
    PrintClassAll_VFTABLE fuel mem static_vftables p img top
        = Outcome.returned [Out.object p 0]
      ∧ renderedTables [Out.object p 0] = []
      ∧ VFPTRS.Print fuel w = Outcome.returned [] := by
  obtain ⟨f, rfl⟩ : ∃ f, fuel = f + 1 :=
    ⟨fuel - 1, by have := get_VFTABLE_fuel_pos fuel static_vftables img top w hwalk; omega⟩
  have hnot : ¬ ((0 : Int) < w.size) := by omega
  have hnot' : ¬ ((0 : Int) < w._size) := hnot
  refine ⟨?_, rfl, ?_⟩
  · simp [PrintClassAll_VFTABLE, hwalk, Outcome.bind, PrintClassAll_VFTABLE.loop, hnot, hempty]
  · simp [VFPTRS.Print, VFPTRS.Print.loop, hnot']

/-- Witness of the amended C9: the image `[0, 16]`. -/
theorem empty_collection_prints_header_only_witness :
    PrintClassAll_VFTABLE 1 exampleMemory (VFPTRS.new 10) 77 [0, 16] 16
        = Outcome.returned [Out.object 77 0]
      ∧ renderedTables [Out.object 77 0] = []
      ∧ VFPTRS.Print 1 (filled []) = Outcome.returned [] :=
  empty_collection_prints_header_only 1 exampleMemory (VFPTRS.new 10) 77 [0, 16] 16
    (filled []) (by decide) (by decide)

/-- The output of `PrintClassAll_VFTABLE` when the walk returns `c` and the
`PrintVFTable` calls on the entries of `c` return the outputs `outs`. -/
theorem PrintClassAll_VFTABLE_of_calls (fuel : Nat) (mem : Memory) (static_vftables : VFPTRS)
    (p : Int) (img : List Int) (top : Int) (c : VFPTRS) (outs : List (List Out))
    (hwalk : get_VFTABLE fuel static_vftables img top = Outcome.returned c)
    (hcalls : List.Forall₂ (fun t out => PrintVFTable fuel mem t = Outcome.returned out)
      c.entries outs) :
    PrintClassAll_VFTABLE fuel mem static_vftables p img top
        = Outcome.returned (Out.object p c.size :: outs.flatten)
      ∧ c.size = (c.entries.length : Int)
      ∧ renderedTables (Out.object p c.size :: outs.flatten) = c.entries := by
  obtain ⟨hfilled, _, hfuel⟩ := get_VFTABLE_filled fuel static_vftables img top c hwalk
  have hloop := PrintClassAll_loop_returns fuel mem c.entries [] outs fuel hcalls hfuel
  simp only [List.nil_append, List.length_nil, Nat.cast_zero] at hloop
  rw [← hfilled] at hloop
  refine ⟨by simp [PrintClassAll_VFTABLE, hwalk, Outcome.bind, hloop], ?_, ?_⟩
  · conv_lhs => rw [hfilled, filled_size]
  · have hjoin : ∀ (ts : List Int) (os : List (List Out)),
        List.Forall₂ (fun t out => PrintVFTable fuel mem t = Outcome.returned out) ts os →
          renderedTables os.flatten = ts := by
      intro ts os hall
      induction hall with
      | nil => rfl
      | cons hhead _ ih =>
        rw [List.flatten_cons, renderedTables_append, PrintVFTable_renders_one fuel mem _ _ hhead, ih]
        rfl
    simp [renderedTables, hjoin c.entries outs hcalls]

theorem calls_return_of_terminated (fuel : Nat) (mem : Memory) : ∀ ts : List Int,
    (∀ t ∈ ts, ∃ n : Nat, terminatedTable mem t n ∧ n < fuel) →
    ∃ outs : List (List Out),
      List.Forall₂ (fun t out => PrintVFTable fuel mem t = Outcome.returned out) ts outs := by
  intro ts
  induction ts with
  | nil => intro _; exact ⟨[], List.Forall₂.nil⟩
  | cons t ts ih =>
    intro h
    obtain ⟨n, hn, hfuel⟩ := h t (List.mem_cons_self _ _)
    obtain ⟨outs, houts⟩ := ih (fun x hx => h x (List.mem_cons_of_mem _ hx))
    exact ⟨_ :: outs,
      List.Forall₂.cons (PrintVFTable_of_terminatedTable fuel mem t n hn hfuel) houts⟩

/-- C10, counterexample. The walk over the two-base object
`[6000, 0, 24, 5000, 0, 24, 0, 64]` terminates with the collection
`[6000, 5000]`, but the table at 6000 of `exampleMemory` has the offset -24
before its first null: `PrintVFTable` on it faults, so
`PrintClassAll_VFTABLE` never renders the second table. -/
theorem reporting_counterexample :
    get_VFTABLE 5 (VFPTRS.new 10) [6000, 0, 24, 5000, 0, 24, 0, 64] 64
        = Outcome.returned (filled [6000, 5000])
      ∧ PrintClassAll_VFTABLE 5 exampleMemory (VFPTRS.new 10) 77
          [6000, 0, 24, 5000, 0, 24, 0, 64] 64 = Outcome.fault
      ∧ ¬ ∃ (fuel : Nat) (out : List Out),
          PrintClassAll_VFTABLE fuel exampleMemory (VFPTRS.new 10) 77
            [6000, 0, 24, 5000, 0, 24, 0, 64] 64 = Outcome.returned out := by
  refine ⟨by decide, by decide, ?_⟩
  rintro ⟨fuel, out, h⟩
  have hshort : ∀ k : Nat, k < 5 →
      PrintClassAll_VFTABLE k exampleMemory (VFPTRS.new 10) 77
        [6000, 0, 24, 5000, 0, 24, 0, 64] 64 = Outcome.outOfFuel := by decide
  by_cases hk : fuel < 5
  · rw [hshort fuel hk] at h
    exact Outcome.noConfusion h
  · obtain ⟨n, rfl⟩ : ∃ n, fuel = n + 5 := ⟨fuel - 5, by omega⟩
    have hwalk := get_VFTABLE_multipleInheritanceImage [6000, 5000] (VFPTRS.new 10) (n + 5)
      (by decide) (by decide) (by simp only [List.length_cons, List.length_nil]; omega)
    have himg : multipleInheritanceImage [6000, 5000] = [6000, 0, 24, 5000, 0, 24, 0, 64] := by
      decide
    have htop : (24 * ((([6000, 5000] : List Int).length : Nat) : Int) + 16) = 64 := by decide
    rw [himg, htop] at hwalk
    have hfault : PrintVFTable (n + 5) exampleMemory 6000 = Outcome.fault :=
      PrintVFTable_unterminated (n + 2)
    have hrun : PrintClassAll_VFTABLE (n + 5) exampleMemory (VFPTRS.new 10) 77
        [6000, 0, 24, 5000, 0, 24, 0, 64] 64 = Outcome.fault := by
      simp [PrintClassAll_VFTABLE, hwalk, Outcome.bind, PrintClassAll_VFTABLE.loop,
        VFPTRS.size, filled, VFPTRS.get_VFTable, hfault]
    rw [hrun] at h
    exact Outcome.noConfusion h

/-- C10, amended. Reporting in discovery order: when the walk returns a
collection `c` each of whose tables is terminated by a null entry after
entries that are callable functions, `PrintClassAll_VFTABLE` emits the header
line stating the count `c.size`, followed by the outputs of one `PrintVFTable`
call per table `c[0], c[1], ..., c[n-1]`, in that order; the tables announced
in its output are exactly the entries of `c`, once each, in discovery order. -/
theorem reporting_in_discovery_order (fuel : Nat) (mem : Memory) (static_vftables : VFPTRS)
    (p : Int) (img : List Int) (top : Int) (c : VFPTRS)
    (hwalk : get_VFTABLE fuel static_vftables img top = Outcome.returned c)
    (htables : ∀ t ∈ c.entries, ∃ n : Nat, terminatedTable mem t n ∧ n < fuel) :
    ∃ outs : List (List Out),
      List.Forall₂ (fun t out => PrintVFTable fuel mem t = Outcome.returned out) c.entries outs
        ∧ PrintClassAll_VFTABLE fuel mem static_vftables p img top
          = Outcome.returned (Out.object p c.size :: outs.flatten)
        ∧ c.size = (c.entries.length : Int)
        ∧ renderedTables (Out.object p c.size :: outs.flatten) = c.entries := by
  obtain ⟨outs, hcalls⟩ := calls_return_of_terminated fuel mem c.entries htables
  exact ⟨outs, hcalls,
    PrintClassAll_VFTABLE_of_calls fuel mem static_vftables p img top c outs hwalk hcalls⟩

/-- Witness of the amended C10: an object with the two terminated tables 4096
and 5000 of `exampleMemory`; the output names table 4096 first, then table
5000. -/
theorem reporting_in_discovery_order_witness :
    PrintClassAll_VFTABLE 5 exampleMemory (VFPTRS.new 10) 77
        [4096, 0, 24, 5000, 0, 24, 0, 64] 64
        = Outcome.returned
          [Out.object 77 2,
            Out.table 4096, Out.index 0 3850979413, Out.call 8192, Out.newline, Out.newline,
            Out.table 5000, Out.index 0 3850979413, Out.call 8200, Out.newline,
            Out.index 1 3850979413, Out.call 8208, Out.newline, Out.newline]
      ∧ ∃ outs : List (List Out),
        List.Forall₂
            (fun t out => PrintVFTable 5 exampleMemory t = Outcome.returned out)
            (filled [4096, 5000]).entries outs
          ∧ PrintClassAll_VFTABLE 5 exampleMemory (VFPTRS.new 10) 77
              [4096, 0, 24, 5000, 0, 24, 0, 64] 64
            = Outcome.returned (Out.object 77 (filled [4096, 5000]).size :: outs.flatten)
          ∧ (filled [4096, 5000]).size = ((filled [4096, 5000]).entries.length : Int)
          ∧ renderedTables (Out.object 77 (filled [4096, 5000]).size :: outs.flatten)
            = (filled [4096, 5000]).entries :=
  ⟨by decide,
    reporting_in_discovery_order 5 exampleMemory (VFPTRS.new 10) 77
      [4096, 0, 24, 5000, 0, 24, 0, 64] 64 (filled [4096, 5000]) (by decide)
      (fun t ht => by
        have hmem : t = 4096 ∨ t = 5000 := by
          simpa [filled_entries] using ht
        rcases hmem with h | h
        · subst h; exact ⟨1, terminatedTable_4096, by decide⟩
        · subst h; exact ⟨2, terminatedTable_5000, by decide⟩)⟩

/-! ## Claim C11: what the markers record -/

mutual
theorem ClassDecl.markers_tag : ∀ (c : ClassDecl) (m : ID), m ∈ c.markers → m.id = 0
  | ClassDecl.mk sizeof bases, m, h => by
    simp only [ClassDecl.markers, List.mem_append, List.mem_singleton] at h
    rcases h with h | h
    · exact ClassDecl.markersOfBases_tag bases m h
    · subst h; rfl
theorem ClassDecl.markersOfBases_tag : ∀ (bs : List ClassDecl) (m : ID),
    m ∈ ClassDecl.markersOfBases bs → m.id = 0
  | [], m, h => by simp [ClassDecl.markersOfBases] at h
  | b :: bs, m, h => by
    simp only [ClassDecl.markersOfBases, List.mem_append] at h
    rcases h with h | h
    · exact ClassDecl.markers_tag b m h
    · exact ClassDecl.markersOfBases_tag bs m h
end

mutual
theorem ClassDecl.markers_eq_map : ∀ c : ClassDecl,
    c.markers = c.constructionOrder.map (fun d => ID.new d.sizeof)
  | ClassDecl.mk sizeof bases => by
    simp only [ClassDecl.markers, ClassDecl.constructionOrder, List.map_append, List.map_cons,
      List.map_nil]
    rw [ClassDecl.markersOfBases_eq_map bases]
    rfl
theorem ClassDecl.markersOfBases_eq_map : ∀ bs : List ClassDecl,
    ClassDecl.markersOfBases bs
      = (ClassDecl.constructionOrderOfBases bs).map (fun d => ID.new d.sizeof)
  | [] => by simp [ClassDecl.markersOfBases, ClassDecl.constructionOrderOfBases]
  | b :: bs => by
    simp only [ClassDecl.markersOfBases, ClassDecl.constructionOrderOfBases, List.map_append]
    rw [ClassDecl.markers_eq_map b, ClassDecl.markersOfBases_eq_map bs]
end

theorem Derived_image_eq_layout (vptr_of_Base vptr : Int) :
    (Derived.new vptr_of_Base vptr).image
      = layout 0 [Region.root vptr [], Region.derived []] := by
  simp [Derived.image, Derived.new, Base.new, ID.words, ID.new, layout, Region.words,
    sizeof_Base, sizeof_Derived]

theorem take_succ_set (l : List Int) : ∀ (n : Nat) (d : Int), n < l.length →
    (l.set n d).take (n + 1) = l.take n ++ [d] := by
  induction l with
  | nil => intro n d h; simp at h
  | cons x xs ih =>
    intro n d h
    cases n with
    | zero => simp
    | succ k =>
      have hk : k < xs.length := by simpa using h
      simp [List.set, ih k d hk]

theorem getElem?_set_self (l : List Int) : ∀ (n : Nat) (d : Int), n < l.length →
    (l.set n d)[n]? = some d := by
  induction l with
  | nil => intro n d h; simp at h
  | cons x xs ih =>
    intro n d h
    cases n with
    | zero => simp
    | succ k =>
      have hk : k < xs.length := by simpa using h
      simpa [List.set] using ih k d hk

theorem getElem?_set_other (l : List Int) : ∀ (n i : Nat) (d : Int), i ≠ n →
    (l.set n d)[i]? = l[i]? := by
  induction l with
  | nil => intro n i d _; simp
  | cons x xs ih =>
    intro n i d h
    cases n with
    | zero =>
      cases i with
      | zero => exact absurd rfl h
      | succ j => simp
    | succ k =>
      cases i with
      | zero => simp
      | succ j =>
        have hj : j ≠ k := fun e => h (by rw [e])
        simpa [List.set] using ih k j d hj

theorem valid_entries_length (w : VFPTRS) (hw : w.valid) :
    w.entries.length = w._size.toNat := by
  obtain ⟨hlen, _, h0, hle⟩ := hw
  simp only [VFPTRS.entries, List.length_take, hlen]
  omega

theorem AddVFPTR_flag (w : VFPTRS) (p : Int) :
    (w.AddVFPTR p).1 = decide (w._size < w.arraySize) := by
  by_cases h : w._size < w.arraySize
  · have hn : ¬ (w._size ≥ w.arraySize) := by omega
    simp [VFPTRS.AddVFPTR, hn, h]
  · have hn : w._size ≥ w.arraySize := by omega
    simp [VFPTRS.AddVFPTR, hn, h]

theorem AddVFPTR_full (w : VFPTRS) (p : Int) (h : ¬ (w._size < w.arraySize)) :
    (w.AddVFPTR p).2 = w := by
  have hn : w._size ≥ w.arraySize := by omega
  simp [VFPTRS.AddVFPTR, hn]

theorem AddVFPTR_room (w : VFPTRS) (p : Int) (h : w._size < w.arraySize) :
    (w.AddVFPTR p).2
      = { vftables := w.vftables.set w._size.toNat p
          _size := w._size + 1
          arraySize := w.arraySize } := by
  have hn : ¬ (w._size ≥ w.arraySize) := by omega
  simp [VFPTRS.AddVFPTR, hn]

theorem AddVFPTR_valid (w : VFPTRS) (p : Int) (hw : w.valid) : (w.AddVFPTR p).2.valid := by
  by_cases h : w._size < w.arraySize
  · rw [AddVFPTR_room w p h]
    obtain ⟨hlen, hcap, h0, hle⟩ := hw
    refine ⟨?_, hcap, ?_, ?_⟩
    · simpa using hlen
    · show 0 ≤ w._size + 1
      omega
    · show w._size + 1 ≤ w.arraySize
      omega
  · rw [AddVFPTR_full w p h]; exact hw

theorem AddVFPTR_entries (w : VFPTRS) (p : Int) (hw : w.valid) :
    (w.AddVFPTR p).2.entries
      = if w.entries.length < w.arraySize.toNat then w.entries ++ [p] else w.entries := by
  have hel := valid_entries_length w hw
  obtain ⟨hlen, hcap, h0, hle⟩ := hw
  by_cases h : w._size < w.arraySize
  · have hlt : w.entries.length < w.arraySize.toNat := by omega
    rw [AddVFPTR_room w p h, if_pos hlt]
    have hidx : w._size.toNat < w.vftables.length := by omega
    have hs : (w._size + 1).toNat = w._size.toNat + 1 := by omega
    simp only [VFPTRS.entries, hs]
    exact take_succ_set w.vftables w._size.toNat p hidx
  · have hge : ¬ (w.entries.length < w.arraySize.toNat) := by omega
    rw [AddVFPTR_full w p h, if_neg hge]

theorem Init_valid (w : VFPTRS) (n : Int) : (w.Init n).valid := by
  by_cases h : n ≤ 0
  · simp [VFPTRS.Init, VFPTRS.valid, h]
  · have hn : 0 < n := by omega
    simp [VFPTRS.Init, VFPTRS.valid, h, hn, le_of_lt hn]

theorem Reachable_valid (w : VFPTRS) (h : VFPTRS.Reachable w) : w.valid := by
  induction h with
  | constructed n => exact Init_valid _ n
  | initialised w n => exact Init_valid w n
  | added w p _ ih => exact AddVFPTR_valid w p ih

/-! ## Claim C12: the loop body against the specified step -/

theorem straddle_inRange (lo hi : Int) (r : Nat) :
    -9223372036854775808 ≤ straddle lo hi r ∧ straddle lo hi r < 9223372036854775808 := by
  unfold straddle toLong
  omega

theorem read_some_bounds (img : List Int) (o x : Int) (h : read img o = some x) :
    0 ≤ o ∧ o + 8 ≤ 8 * (img.length : Int)
      ∧ (x ∈ img ∨ (-9223372036854775808 ≤ x ∧ x < 9223372036854775808)) := by
  unfold read at h
  split at h
  · rename_i hc
    have hmem : x ∈ img := List.getElem?_mem h
    have hlt : (o / 8).toNat < img.length := (List.getElem?_eq_some_iff.mp h).1
    refine ⟨hc.1, ?_, Or.inl hmem⟩
    omega
  · split at h
    · rename_i hc h0
      split at h
      · rename_i lo hi hlo hhi
        have hlt : (o / 8).toNat + 1 < img.length := (List.getElem?_eq_some_iff.mp hhi).1
        have hx : straddle lo hi (o % 8).toNat = x := Option.some.inj h
        rw [← hx]
        refine ⟨h0, ?_, Or.inr (straddle_inRange _ _ _)⟩
        omega
      · exact Option.noConfusion h
    · exact Option.noConfusion h

theorem loopBody_abstract (img : List Int) (top : Int) (s : WalkState)
    (hfit : 8 * (img.length : Int) < 9223372036854775808)
    (hwords : ∀ x ∈ img, -9223372036854775808 ≤ x ∧ x < 9223372036854775808)
    (hvalid : s.vftables.valid)
    (hbase : (0 ≤ s.base_address ∧ s.base_address < 9223372036854775808)
      ∨ read img s.offset = none) :
    (loopBody img top s).abstract
      = specStep s.vftables.arraySize.toNat img top s.abstract := by
  cases hr : read img s.offset with
  | none =>
    rw [loopBody_of_unreadable img top s hr]
    simp [Step.abstract, specStep, WalkState.abstract, hr]
  | some d =>
    obtain ⟨ho0, ho8, _⟩ := read_some_bounds img s.offset d hr
    have hb : 0 ≤ s.base_address ∧ s.base_address < 9223372036854775808 := by
      rcases hbase with hb | hb
      · exact hb
      · rw [hr] at hb; exact Option.noConfusion hb
    by_cases hd : d = 0
    · subst hd
      have hu : toULong (s.offset + 8) = s.offset + 8 :=
        toULong_of_inRange _ (by omega) (by omega)
      cases ht : read img (s.offset + 8) with
      | none =>
        rw [loopBody_of_cut_marker img top s hr (by rw [hu]; exact ht)]
        simp [Step.abstract, specStep, WalkState.abstract, hr, ht]
      | some t =>
        obtain ⟨_, ht8, htmem⟩ := read_some_bounds img (s.offset + 8) t ht
        obtain ⟨ht1, ht2⟩ : -9223372036854775808 ≤ t ∧ t < 9223372036854775808 :=
          htmem.elim (hwords t) id
        rw [loopBody_of_marker img top s t hr (by rw [hu]; exact ht)]
        have hiff : toULong t = toULong (s.offset + 16 - s.base_address)
            ↔ t = s.offset + 16 - s.base_address := by
          unfold toULong
          constructor
          · intro h; omega
          · intro h; rw [h]
        simp only [specStep, WalkState.abstract, hr, ht, ne_eq, not_true_eq_false, if_false]
        unfold afterSizeField
        by_cases h1 : t = top
        · simp [h1, Step.abstract]
        · by_cases h2 : t = s.offset + 16 - s.base_address
          · have hin : inLong (s.base_address + t) = true :=
              inLong_of_inRange _ (by omega) (by omega)
            simp [h1, hiff.mpr h2, ← h2, hin, Step.abstract, WalkState.abstract]
          · have h2' : ¬ toULong t = toULong (s.offset + 16 - s.base_address) :=
              fun h => h2 (hiff.mp h)
            simp [h1, h2, h2', Step.abstract, WalkState.abstract]
    · rw [loopBody_of_vptr img top s d hr hd]
      have hl : toLong (s.offset + 8) = s.offset + 8 :=
        toLong_of_inRange _ (by omega) (by omega)
      simp [Step.abstract, specStep, WalkState.abstract, hr, hd, hl,
        AddVFPTR_entries s.vftables d hvalid]

theorem AddVFPTR_arraySize (w : VFPTRS) (p : Int) :
    (w.AddVFPTR p).2.arraySize = w.arraySize := by
  by_cases h : w._size < w.arraySize
  · rw [AddVFPTR_room w p h]
  · rw [AddVFPTR_full w p h]

theorem cursor_in_range_or_unreadable (img : List Int) (e : Int)
    (hfit : 8 * (img.length : Int) < 9223372036854775808) :
    (0 ≤ e ∧ e < 9223372036854775808) ∨ read img e = none := by
  cases hr : read img e with
  | none => exact Or.inr rfl
  | some x =>
    obtain ⟨h0, h8, _⟩ := read_some_bounds img e x hr
    exact Or.inl ⟨h0, by omega⟩

theorem walkInvariant_step (img : List Int) (top : Int)
    (hfit : 8 * (img.length : Int) < 9223372036854775808) (s s' : WalkState)
    (hinv : walkInvariant img s) (hstep : loopBody img top s = Step.next s') :
    walkInvariant img s' := by
  obtain ⟨hvalid, hcap, hbase⟩ := hinv
  cases hr : read img s.offset with
  | none => rw [loopBody_of_unreadable img top s hr] at hstep; exact Step.noConfusion hstep
  | some d =>
    by_cases hd : d = 0
    · subst hd
      cases ht : read img (toULong (s.offset + 8)) with
      | none =>
        rw [loopBody_of_cut_marker img top s hr ht] at hstep
        exact Step.noConfusion hstep
      | some t =>
        rw [loopBody_of_marker img top s t hr ht] at hstep
        unfold afterSizeField at hstep
        split_ifs at hstep
        · injection hstep with hs
          subst hs
          exact ⟨hvalid, hcap, cursor_in_range_or_unreadable img _ hfit⟩
        · injection hstep with hs
          subst hs
          exact ⟨hvalid, hcap, cursor_in_range_or_unreadable img _ hfit⟩
    · rw [loopBody_of_vptr img top s d hr hd] at hstep
      injection hstep with hs
      subst hs
      refine ⟨AddVFPTR_valid _ d hvalid, by rw [AddVFPTR_arraySize]; exact hcap, Or.inl ?_⟩
      rcases hbase with hb | hb
      · exact hb
      · rw [hr] at hb; exact Option.noConfusion hb

theorem walkInvariant_states (img : List Int) (top : Int)
    (hfit : 8 * (img.length : Int) < 9223372036854775808) : ∀ (fuel : Nat) (s : WalkState),
    walkInvariant img s → ∀ s' ∈ states img top fuel s, walkInvariant img s' := by
  intro fuel
  induction fuel with
  | zero => intro s _ s' h; simp [states] at h
  | succ n ih =>
    intro s hinv s' h
    simp only [states, List.mem_cons] at h
    rcases h with h | h
    · subst h; exact hinv
    · cases hb : loopBody img top s with
      | next s1 =>
        rw [hb] at h
        exact ih s1 (walkInvariant_step img top hfit s s1 hinv hb) s' h
      | exit v => rw [hb] at h; simp at h
      | fault => rw [hb] at h; simp at h

theorem walkInvariant_entry (img : List Int) (st : VFPTRS) :
    walkInvariant img (entryState st) := by
  refine ⟨Init_valid st MAXSIZE, rfl, Or.inl ?_⟩
  simp [entryState]

/-- C12. The loop body of `get_VFTABLE` refines the specified step: on an
object image that fits a `long` byte count and holds `long` words, for every
state whose buffer is a valid `VFPTRS` and whose `base_address` is a
non-negative `long`, the outcome of one execution of the loop body stands for
the outcome the specified step computes from the state's offset, base and
stored tables, with the buffer's capacity; and every state a call of
`get_VFTABLE` runs the body in is such a state (or has no readable word at
`offset`, where both are undefined), with capacity `MAXSIZE = 5`. -/
theorem loop_body_refines_specified_step (img : List Int) (top : Int)
    (hfit : 8 * (img.length : Int) < 9223372036854775808)
    (hwords : ∀ x ∈ img, -9223372036854775808 ≤ x ∧ x < 9223372036854775808) :
    (∀ s : WalkState, s.vftables.valid → 0 ≤ s.base_address →
        s.base_address < 9223372036854775808 →
        (loopBody img top s).abstract
          = specStep s.vftables.arraySize.toNat img top s.abstract)
      ∧ (∀ (fuel : Nat) (static_vftables : VFPTRS) (s : WalkState),
          s ∈ states img top fuel (entryState static_vftables) →
            (loopBody img top s).abstract = specStep 5 img top s.abstract) := by
  refine ⟨fun s hv h0 h1 => loopBody_abstract img top s hfit hwords hv (Or.inl ⟨h0, h1⟩), ?_⟩
  intro fuel st s hs
  obtain ⟨hv, hcap, hb⟩ := walkInvariant_states img top hfit fuel (entryState st)
    (walkInvariant_entry img st) s hs
  have h := loopBody_abstract img top s hfit hwords hv hb
  rw [hcap] at h
  exact h

/-- Witness of C12: the test image `[4096, 0, 24, 0, 40]`; in the entry state
the body appends 4096 and advances `offset` to 8, as the specified step
does. -/
theorem loop_body_refines_specified_step_witness :
    ((∀ s : WalkState, s.vftables.valid → 0 ≤ s.base_address →
        s.base_address < 9223372036854775808 →
        (loopBody [4096, 0, 24, 0, 40] 40 s).abstract
          = specStep s.vftables.arraySize.toNat [4096, 0, 24, 0, 40] 40 s.abstract)
      ∧ (∀ (fuel : Nat) (static_vftables : VFPTRS) (s : WalkState),
          s ∈ states [4096, 0, 24, 0, 40] 40 fuel (entryState static_vftables) →
            (loopBody [4096, 0, 24, 0, 40] 40 s).abstract
              = specStep 5 [4096, 0, 24, 0, 40] 40 s.abstract))
      ∧ specStep 5 [4096, 0, 24, 0, 40] 40 ⟨0, 0, []⟩
        = SpecStep.proceed ⟨8, 0, [4096]⟩
      ∧ specStep 5 [4096, 0, 24, 0, 40] 40 ⟨8, 0, [4096]⟩
        = SpecStep.proceed ⟨24, 24, [4096]⟩
      ∧ specStep 5 [4096, 0, 24, 0, 40] 40 ⟨24, 24, [4096]⟩ = SpecStep.stop [4096] :=
  ⟨loop_body_refines_specified_step [4096, 0, 24, 0, 40] 40 (by decide) (by decide),
    by decide, by decide, by decide⟩

/-! ## Claims C13 and C14: the `VFPTRS` buffer -/

theorem get_VFTable_AddVFPTR_self (w : VFPTRS) (p : Int) (hw : w.valid)
    (h : w._size < w.arraySize) : (w.AddVFPTR p).2.get_VFTable w._size = some p := by
  obtain ⟨hlen, _, h0, _⟩ := hw
  rw [AddVFPTR_room w p h]
  simp only [VFPTRS.get_VFTable, h0, if_true]
  exact getElem?_set_self w.vftables w._size.toNat p (by omega)

theorem get_VFTable_AddVFPTR_other (w : VFPTRS) (p i : Int) (h0 : 0 ≤ w._size)
    (hi0 : 0 ≤ i) (hi : i < w._size) :
    (w.AddVFPTR p).2.get_VFTable i = w.get_VFTable i := by
  by_cases h : w._size < w.arraySize
  · rw [AddVFPTR_room w p h]
    simp only [VFPTRS.get_VFTable, hi0, if_true]
    exact getElem?_set_other w.vftables w._size.toNat i.toNat p (by omega)
  · rw [AddVFPTR_full w p h]

/-- C13. `AddVFPTR` is all-or-nothing: on every `VFPTRS` state, `AddVFPTR(p)`
returns true if and only if `size < capacity` beforehand; when it returns true
the size grows by exactly 1, `get_VFTable(old size)` is `p`, every earlier
entry and the capacity are unchanged; when it returns false the whole state
(size, capacity, every stored entry) is unchanged. -/
theorem AddVFPTR_all_or_nothing (w : VFPTRS) (p : Int) (hw : w.valid) :
    ((w.AddVFPTR p).1 = true ↔ w.size < w.arraySize)
      ∧ ((w.AddVFPTR p).1 = true →
          (w.AddVFPTR p).2.size = w.size + 1
            ∧ (w.AddVFPTR p).2.get_VFTable w.size = some p
            ∧ (∀ i : Int, 0 ≤ i → i < w.size →
                (w.AddVFPTR p).2.get_VFTable i = w.get_VFTable i)
            ∧ (w.AddVFPTR p).2.arraySize = w.arraySize)
      ∧ ((w.AddVFPTR p).1 = false → (w.AddVFPTR p).2 = w) := by
  have hflag := AddVFPTR_flag w p
  refine ⟨?_, ?_, ?_⟩
  · rw [hflag]; simp [VFPTRS.size]
  · intro ht
    rw [hflag, decide_eq_true_eq] at ht
    refine ⟨?_, get_VFTable_AddVFPTR_self w p hw ht,
      fun i hi0 hi => get_VFTable_AddVFPTR_other w p i hw.2.2.1 hi0 hi,
      AddVFPTR_arraySize w p⟩
    rw [AddVFPTR_room w p ht]; rfl
  · intro hf
    rw [hflag, decide_eq_false_iff_not] at hf
    exact AddVFPTR_full w p hf

/-- Witness of C13: adding 8192 to the capacity-5 buffer that holds `[4096]`. -/
theorem AddVFPTR_all_or_nothing_witness :
    (((filled [4096]).AddVFPTR 8192).1 = true ↔ (filled [4096]).size < (filled [4096]).arraySize)
      ∧ (((filled [4096]).AddVFPTR 8192).1 = true →
          ((filled [4096]).AddVFPTR 8192).2.size = (filled [4096]).size + 1
            ∧ ((filled [4096]).AddVFPTR 8192).2.get_VFTable (filled [4096]).size = some 8192
            ∧ (∀ i : Int, 0 ≤ i → i < (filled [4096]).size →
                ((filled [4096]).AddVFPTR 8192).2.get_VFTable i
                  = (filled [4096]).get_VFTable i)
            ∧ ((filled [4096]).AddVFPTR 8192).2.arraySize = (filled [4096]).arraySize)
      ∧ (((filled [4096]).AddVFPTR 8192).1 = false
          → ((filled [4096]).AddVFPTR 8192).2 = filled [4096]) :=
  AddVFPTR_all_or_nothing (filled [4096]) 8192 (by unfold VFPTRS.valid; decide)

/-- C14. The bounds invariant of `VFPTRS`: in every state reachable from a
constructor or `Init` call by `Init` and `AddVFPTR` calls, `capacity > 0`,
`0 <= size <= capacity` and the array has `capacity` slots; `Init(n)` sets the
size to 0 and the capacity to `n` when `n > 0`, to 10 otherwise; so the index
`AddVFPTR` writes, and every index `0 <= i < size` given to `get_VFTable`, lies
inside the allocated array. -/
theorem VFPTRS_bounds_invariant (w : VFPTRS) (hreach : VFPTRS.Reachable w) (n p i : Int) :
    (0 < w.arraySize ∧ 0 ≤ w.size ∧ w.size ≤ w.arraySize)
      ∧ w.vftables.length = w.arraySize.toNat
      ∧ ((w.Init n).size = 0 ∧ (w.Init n).arraySize = if 0 < n then n else 10)
      ∧ ((w.AddVFPTR p).1 = true → 0 ≤ w._size ∧ w._size.toNat < w.vftables.length)
      ∧ (0 ≤ i → i < w.size → i.toNat < w.vftables.length
          ∧ ∃ t : Int, w.get_VFTable i = some t) := by
  obtain ⟨hlen, hcap, h0, hle⟩ := Reachable_valid w hreach
  refine ⟨⟨hcap, h0, hle⟩, hlen, ?_, ?_, ?_⟩
  · by_cases hn : n ≤ 0
    · have hn' : ¬ (0 < n) := by omega
      simp [VFPTRS.Init, VFPTRS.size, hn, hn']
    · have hn' : 0 < n := by omega
      simp [VFPTRS.Init, VFPTRS.size, hn, hn']
  · intro ht
    rw [AddVFPTR_flag, decide_eq_true_eq] at ht
    exact ⟨h0, by omega⟩
  · intro hi0 hi
    have hi' : i < w._size := hi
    have hidx : i.toNat < w.vftables.length := by omega
    refine ⟨hidx, w.vftables.get ⟨i.toNat, hidx⟩, ?_⟩
    simp [VFPTRS.get_VFTable, hi0, List.getElem?_eq_getElem hidx]

/-- Witness of C14: the buffer constructed with capacity 5 after one
`AddVFPTR`. -/
theorem VFPTRS_bounds_invariant_witness :
    (0 < ((VFPTRS.new 5).AddVFPTR 4096).2.arraySize
        ∧ 0 ≤ ((VFPTRS.new 5).AddVFPTR 4096).2.size
        ∧ ((VFPTRS.new 5).AddVFPTR 4096).2.size ≤ ((VFPTRS.new 5).AddVFPTR 4096).2.arraySize)
      ∧ ((VFPTRS.new 5).AddVFPTR 4096).2.vftables.length
        = ((VFPTRS.new 5).AddVFPTR 4096).2.arraySize.toNat
      ∧ ((((VFPTRS.new 5).AddVFPTR 4096).2.Init (-3)).size = 0
        ∧ (((VFPTRS.new 5).AddVFPTR 4096).2.Init (-3)).arraySize
          = if (0 : Int) < -3 then -3 else 10)
      ∧ ((((VFPTRS.new 5).AddVFPTR 4096).2.AddVFPTR 8192).1 = true →
          0 ≤ ((VFPTRS.new 5).AddVFPTR 4096).2._size
            ∧ ((VFPTRS.new 5).AddVFPTR 4096).2._size.toNat
              < ((VFPTRS.new 5).AddVFPTR 4096).2.vftables.length)
      ∧ ((0 : Int) ≤ 0 → 0 < ((VFPTRS.new 5).AddVFPTR 4096).2.size →
          (0 : Int).toNat < ((VFPTRS.new 5).AddVFPTR 4096).2.vftables.length
            ∧ ∃ t : Int, ((VFPTRS.new 5).AddVFPTR 4096).2.get_VFTable 0 = some t) :=
  VFPTRS_bounds_invariant ((VFPTRS.new 5).AddVFPTR 4096).2
    (VFPTRS.Reachable.added (VFPTRS.new 5) 4096 (VFPTRS.Reachable.constructed 5))
    (-3) 8192 0

/-! ## Claim C15: what the returned collection holds -/

theorem read_aligned_mem (img : List Int) (o d : Int) (hr : read img o = some d)
    (ha : o % 8 = 0) : d ∈ img := by
  have h0 := (read_some_bounds img o d hr).1
  unfold read at hr
  rw [if_pos ⟨h0, ha⟩] at hr
  exact List.getElem?_mem hr

/-- C15, counterexample. On `[4096, 0, 12, 171798691840, 0, 0, 40]` with
top-level size 40 the first marker holds the size 12, so the walk goes on at
offset 12 and takes the 8 bytes at offsets 12 to 19 for a vtable pointer: the
returned collection is `[4096, 51539607552]`, and 51539607552 is not a word of
the object image. -/
theorem returned_entry_counterexample :
    get_VFTABLE 4 (VFPTRS.new 10) [4096, 0, 12, 171798691840, 0, 0, 40] 40
        = Outcome.returned (filled [4096, 51539607552])
      ∧ (filled [4096, 51539607552]).entries = [4096, 51539607552]
      ∧ read [4096, 0, 12, 171798691840, 0, 0, 40] 12 = some 51539607552
      ∧ ¬ ∀ e ∈ (filled [4096, 51539607552]).entries,
          e ∈ ([4096, 0, 12, 171798691840, 0, 0, 40] : List Int) := by
  refine ⟨by decide, by decide, by decide, by decide⟩

/-- C15, amended. No null table is ever returned: whenever `get_VFTABLE`
returns, every entry of the returned collection differs from the sentinel 0
and is the 8-byte value the walk loaded from the object at an offset it took
for a vtable pointer (a word of the image when that offset is a multiple of 8,
otherwise bytes that straddle two words); the entries are the values at the
first such offsets, in the order the walk visited them; the size is the number
of entries and at most 5, and `get_VFTable` yields a non-zero value at every
index below the size. -/
theorem no_null_table_returned (fuel : Nat) (static_vftables : VFPTRS) (img : List Int)
    (top : Int) (w : VFPTRS)
    (hret : get_VFTABLE fuel static_vftables img top = Outcome.returned w) :
    (∀ e ∈ w.entries, e ≠ 0)
      ∧ w.entries.map some
        = ((vptrOffsets img top fuel (entryState static_vftables)).take 5).map (read img)
      ∧ (∀ o ∈ vptrOffsets img top fuel (entryState static_vftables),
          ∃ d : Int, read img o = some d ∧ d ≠ 0 ∧ (o % 8 = 0 → d ∈ img))
      ∧ w.size = (w.entries.length : Int)
      ∧ w.size ≤ 5
      ∧ (∀ i : Nat, (i : Int) < w.size →
          ∃ t : Int, w.get_VFTable (i : Int) = some t ∧ t ≠ 0) := by
  obtain ⟨_, hmap⟩ := get_VFTABLE_entries fuel static_vftables img top w hret
  obtain ⟨hfilled, hle, _⟩ := get_VFTABLE_filled fuel static_vftables img top w hret
  have hsize : w.size = (w.entries.length : Int) := by
    conv_lhs => rw [hfilled, filled_size]
  have hentries : ∀ e ∈ w.entries, e ≠ 0 := by
    intro e he
    have hsome : some e ∈ w.entries.map some := List.mem_map_of_mem some he
    rw [hmap, List.mem_map] at hsome
    obtain ⟨o, ho, hread⟩ := hsome
    obtain ⟨d, hd, hd0⟩ := vptrOffsets_nonzero img top fuel _ o (List.mem_of_mem_take ho)
    rw [hd] at hread
    have hde : d = e := Option.some.inj hread
    subst hde
    exact hd0
  refine ⟨hentries, hmap, ?_, hsize, by rw [hsize]; omega, ?_⟩
  · intro o ho
    obtain ⟨d, hd, hd0⟩ := vptrOffsets_nonzero img top fuel _ o ho
    exact ⟨d, hd, hd0, read_aligned_mem img o d hd⟩
  · intro i hi
    have hi' : i < w.entries.length := by rw [hsize] at hi; omega
    refine ⟨w.entries.get ⟨i, hi'⟩, ?_, hentries _ (List.get_mem _ _ _)⟩
    conv_lhs => rw [hfilled]
    exact filled_get w.entries i hi'

/-- Witness of the amended C15: the image of the counterexample, whose second
entry is loaded at the unaligned offset 12. -/
theorem no_null_table_returned_witness :
    (∀ e ∈ (filled [4096, 51539607552]).entries, e ≠ 0)
      ∧ (filled [4096, 51539607552]).entries.map some
        = ((vptrOffsets [4096, 0, 12, 171798691840, 0, 0, 40] 40 4
            (entryState (VFPTRS.new 10))).take 5).map
            (read [4096, 0, 12, 171798691840, 0, 0, 40])
      ∧ (∀ o ∈ vptrOffsets [4096, 0, 12, 171798691840, 0, 0, 40] 40 4
            (entryState (VFPTRS.new 10)),
          ∃ d : Int, read [4096, 0, 12, 171798691840, 0, 0, 40] o = some d ∧ d ≠ 0
            ∧ (o % 8 = 0 → d ∈ ([4096, 0, 12, 171798691840, 0, 0, 40] : List Int)))
      ∧ (filled [4096, 51539607552]).size
        = ((filled [4096, 51539607552]).entries.length : Int)
      ∧ (filled [4096, 51539607552]).size ≤ 5
      ∧ (∀ i : Nat, (i : Int) < (filled [4096, 51539607552]).size →
          ∃ t : Int, (filled [4096, 51539607552]).get_VFTable (i : Int) = some t ∧ t ≠ 0) :=
  no_null_table_returned 4 (VFPTRS.new 10) [4096, 0, 12, 171798691840, 0, 0, 40] 40
    (filled [4096, 51539607552]) (by decide)

/-! ## Claim C16: the walk stops at the first top-level marker -/

theorem read_run (vs post : List Int) :
    (List.range vs.length).map (fun j : Nat => read (vs ++ post) (8 * (j : Int)))
      = vs.map some := by
  apply List.ext_getElem?
  intro i
  by_cases hi : i < vs.length
  · simp [hi, read_word, List.getElem?_append_left hi]
  · have hle := Nat.le_of_not_lt hi
    simp [List.getElem?_eq_none hle, hle]

theorem inspectedOffsets_of_vptr (img : List Int) (top id_offset : Int) (fuel : Nat)
    (s : WalkState) (d : Int) (h : read img s.offset = some d) (hd : d ≠ 0) :
    inspectedOffsets img top id_offset (fuel + 1) s
      = s.offset :: inspectedOffsets img top id_offset fuel
          ⟨(s.vftables.AddVFPTR d).2, s.base_address, toLong (s.offset + 8)⟩ := by
  simp [inspectedOffsets, states, loopBody_of_vptr img top s d h hd, loadsOf, h, hd,
    placeholder_id]

theorem inspectedOffsets_of_exit (img : List Int) (top id_offset : Int) (fuel : Nat)
    (s : WalkState) (t : Int) (v : VFPTRS) (h : read img s.offset = some 0)
    (ht : read img (toULong (s.offset + 8)) = some t)
    (hb : loopBody img top s = Step.exit v) :
    inspectedOffsets img top id_offset (fuel + 1) s
      = [s.offset, toULong (s.offset + 8), id_offset + 8] := by
  simp [inspectedOffsets, states, hb, loadsOf, h, ht, placeholder_id]

theorem loop_over_vptr_run (top id_offset : Int) (vs : List Int) : ∀ (pre post : List Int) (w : VFPTRS)
    (b : Int) (fuel : Nat),
    (∀ v ∈ vs, v ≠ 0) →
    8 * ((pre.length : Int) + (vs.length : Int)) < 9223372036854775808 →
    loop (pre ++ vs ++ post) top (fuel + vs.length) ⟨w, b, 8 * (pre.length : Int)⟩
        = loop (pre ++ vs ++ post) top fuel
          ⟨addAll w vs, b, 8 * ((pre.length : Int) + (vs.length : Int))⟩
      ∧ vptrOffsets (pre ++ vs ++ post) top (fuel + vs.length) ⟨w, b, 8 * (pre.length : Int)⟩
        = ((List.range vs.length).map fun j : Nat => 8 * ((pre.length : Int) + (j : Int)))
          ++ vptrOffsets (pre ++ vs ++ post) top fuel
            ⟨addAll w vs, b, 8 * ((pre.length : Int) + (vs.length : Int))⟩
      ∧ sizeFieldOffsets (pre ++ vs ++ post) top (fuel + vs.length)
          ⟨w, b, 8 * (pre.length : Int)⟩
        = sizeFieldOffsets (pre ++ vs ++ post) top fuel
          ⟨addAll w vs, b, 8 * ((pre.length : Int) + (vs.length : Int))⟩
      ∧ inspectedOffsets (pre ++ vs ++ post) top id_offset (fuel + vs.length)
          ⟨w, b, 8 * (pre.length : Int)⟩
        = ((List.range vs.length).map fun j : Nat => 8 * ((pre.length : Int) + (j : Int)))
          ++ inspectedOffsets (pre ++ vs ++ post) top id_offset fuel
            ⟨addAll w vs, b, 8 * ((pre.length : Int) + (vs.length : Int))⟩ := by
  induction vs with
  | nil =>
    intro pre post w b fuel _ _
    simp [addAll]
  | cons v vs ih =>
    intro pre post w b fuel hv hfit
    have hv0 : v ≠ 0 := hv v (List.mem_cons_self _ _)
    have hrest : ∀ x ∈ vs, x ≠ 0 := fun x hx => hv x (List.mem_cons_of_mem _ hx)
    simp only [List.length_cons, Nat.cast_add, Nat.cast_one] at hfit
    have hlen : (0 : Int) ≤ (vs.length : Int) := Int.ofNat_nonneg _
    have hpre : (0 : Int) ≤ (pre.length : Int) := Int.ofNat_nonneg _
    have himg : pre ++ (v :: vs) ++ post = (pre ++ [v]) ++ vs ++ post := by simp
    have hread : read (pre ++ (v :: vs) ++ post) (8 * (pre.length : Int)) = some v := by
      have := read_at0 pre (vs ++ post) v
      simpa using this
    have hl : toLong (8 * (pre.length : Int) + 8) = 8 * ((pre ++ [v]).length : Int) := by
      rw [toLong_of_inRange _ (by omega) (by omega)]
      simp only [List.length_append, List.length_singleton, Nat.cast_add, Nat.cast_one]
      ring
    have hstep := loopBody_of_vptr (pre ++ (v :: vs) ++ post) top
      ⟨w, b, 8 * (pre.length : Int)⟩ v hread hv0
    simp only [hl] at hstep
    have hvo := vptrOffsets_of_vptr (pre ++ (v :: vs) ++ post) top (fuel + vs.length)
      ⟨w, b, 8 * (pre.length : Int)⟩ v hread hv0
    have hso := sizeFieldOffsets_of_vptr (pre ++ (v :: vs) ++ post) top (fuel + vs.length)
      ⟨w, b, 8 * (pre.length : Int)⟩ v hread hv0
    have hio := inspectedOffsets_of_vptr (pre ++ (v :: vs) ++ post) top id_offset
      (fuel + vs.length) ⟨w, b, 8 * (pre.length : Int)⟩ v hread hv0
    simp only [hl] at hvo hso hio
    obtain ⟨h1, h2, h3, h4⟩ := ih (pre ++ [v]) post (w.AddVFPTR v).2 b fuel hrest
      (by simp only [List.length_append, List.length_singleton, Nat.cast_add, Nat.cast_one]
          omega)
    have hpos : 8 * (((pre ++ [v]).length : Int) + (vs.length : Int))
        = 8 * ((pre.length : Int) + (((v :: vs).length : Nat) : Int)) := by
      simp only [List.length_append, List.length_singleton, List.length_cons, List.length_nil,
        Nat.cast_add, Nat.cast_one, Nat.cast_zero]
      ring
    have hadd : addAll (w.AddVFPTR v).2 vs = addAll w (v :: vs) := rfl
    rw [hpos, hadd, ← himg] at h1 h2 h3 h4
    have hfuel : fuel + (v :: vs).length = (fuel + vs.length) + 1 := by
      simp only [List.length_cons]; omega
    have hmap : (List.range (vs.length + 1)).map
          (fun j : Nat => 8 * ((pre.length : Int) + (j : Int)))
        = 8 * (pre.length : Int)
          :: (List.range vs.length).map
            (fun j : Nat => 8 * (((pre ++ [v]).length : Int) + (j : Int))) := by
      rw [List.range_succ_eq_map, List.map_cons, List.map_map]
      have h0 : 8 * ((pre.length : Int) + ((0 : Nat) : Int)) = 8 * (pre.length : Int) := by
        simp
      rw [h0]
      refine congrArg (List.cons _) ?_
      apply List.map_congr_left
      intro j _
      simp only [Function.comp, Nat.succ_eq_add_one, List.length_append,
        List.length_singleton]
      push_cast
      ring
    refine ⟨?_, ?_, ?_, ?_⟩
    · rw [hfuel, loop_succ_next _ _ _ _ _ hstep, h1]
    · rw [hfuel, hvo, h2, List.length_cons, hmap, List.cons_append]
    · rw [hfuel, hso, h3]
    · rw [hfuel, hio, h4, List.length_cons, hmap, List.cons_append]

/-- C16, counterexample. (a) Six non-sentinel words precede the first marker of
`[1, 2, 3, 4, 5, 6, 0, 64]`, whose size field is the top-level size 64; the walk
returns five of them, not exactly the six words that precede the marker.
(b) In `[4096, 0, 40, 0, 40]` both markers carry the complete object's size 40;
through a pointer typed as the derived class, whose `id` is at byte offset 24,
the walk stops at the first marker (bytes 8 to 23) and returns `[4096]`, but its
comparison with `ptr->id.sizeofclass` loads the word at offset 32, behind that
marker. -/
theorem first_marker_counterexample :
    get_VFTABLE 7 (VFPTRS.new 10) [1, 2, 3, 4, 5, 6, 0, 64] 64
        = Outcome.returned (filled [1, 2, 3, 4, 5])
      ∧ (filled [1, 2, 3, 4, 5]).entries = [1, 2, 3, 4, 5]
      ∧ (filled [1, 2, 3, 4, 5]).entries ≠ [1, 2, 3, 4, 5, 6]
      ∧ read [4096, 0, 40, 0, 40] (24 + 8) = some 40
      ∧ get_VFTABLE 2 (VFPTRS.new 10) [4096, 0, 40, 0, 40] 40
        = Outcome.returned (filled [4096])
      ∧ inspectedOffsets [4096, 0, 40, 0, 40] 40 24 2 (entryState (VFPTRS.new 10))
        = [0, 8, 16, 32] := by
  refine ⟨by decide, by decide, by decide, by decide, by decide, by decide⟩

/-- C16, amended. If the first sentinel word of the image is followed by a
size field equal to the top-level size `ptr->id.sizeofclass`, which the object
holds at `id_offset + 8`, then `get_VFTABLE` returns the non-sentinel words `vs`
that precede that marker, up to its capacity of 5 (all of them when there are at
most 5, so exactly `[v1]` when only `v1` precedes the marker). The words it takes
for vtable pointers are those at offsets `0, 8, ...` before the marker, the only
marker size field it reads is that marker's, and its loads from the object are,
in order, the words before the marker, the marker's tag, the marker's size field
and the top-level size at `id_offset + 8`, with the values `vs`, 0, the
top-level size and the top-level size again: nothing else behind the marker is
inspected, and whatever follows the marker does not enter the result. -/
theorem walk_stops_at_first_top_marker (vs rest : List Int) (id_offset top : Int)
    (static_vftables : VFPTRS) (fuel : Nat) (hv : ∀ v ∈ vs, v ≠ 0)
    (htop : read (vs ++ [0, top] ++ rest) (id_offset + 8) = some top)
    (hfit : 8 * ((vs.length : Int) + 2) < 9223372036854775808)
    (hfuel : vs.length + 1 ≤ fuel) :
    get_VFTABLE fuel static_vftables (vs ++ [0, top] ++ rest) top
        = Outcome.returned (filled (vs.take 5))
      ∧ (filled (vs.take 5)).entries = vs.take 5
      ∧ (vs.length ≤ 5 → (filled (vs.take 5)).entries = vs)
      ∧ vptrOffsets (vs ++ [0, top] ++ rest) top fuel (entryState static_vftables)
        = (List.range vs.length).map (fun j : Nat => 8 * (j : Int))
      ∧ sizeFieldOffsets (vs ++ [0, top] ++ rest) top fuel (entryState static_vftables)
        = [8 * (vs.length : Int) + 8]
      ∧ inspectedOffsets (vs ++ [0, top] ++ rest) top id_offset fuel
          (entryState static_vftables)
        = (List.range vs.length).map (fun j : Nat => 8 * (j : Int))
          ++ [8 * (vs.length : Int), 8 * (vs.length : Int) + 8, id_offset + 8]
      ∧ (inspectedOffsets (vs ++ [0, top] ++ rest) top id_offset fuel
          (entryState static_vftables)).map (read (vs ++ [0, top] ++ rest))
        = vs.map some ++ [some 0, some top, some top] := by
  obtain ⟨extra, rfl⟩ : ∃ e, fuel = (e + 1) + vs.length :=
    ⟨fuel - (vs.length + 1), by omega⟩
  have hlen : (0 : Int) ≤ (vs.length : Int) := Int.ofNat_nonneg _
  have himg : vs ++ [0, top] ++ rest = [] ++ vs ++ (0 :: top :: rest) := by simp
  obtain ⟨h1, h2, h3, h4⟩ := loop_over_vptr_run top id_offset vs [] (0 :: top :: rest)
    (VFPTRS.new MAXSIZE) 0 (extra + 1) hv (by simp only [List.length_nil, Nat.cast_zero]; omega)
  simp only [List.length_nil, Nat.cast_zero, mul_zero, zero_add, List.nil_append]
    at h1 h2 h3 h4
  have himg' : vs ++ [0, top] ++ rest = vs ++ 0 :: top :: rest := by simp
  have hr0 : read (vs ++ 0 :: top :: rest) (8 * (vs.length : Int)) = some 0 :=
    read_at0 vs (top :: rest) 0
  have hr1 : read (vs ++ 0 :: top :: rest) (8 * (vs.length : Int) + 8) = some top :=
    read_at1 vs rest 0 top
  have hexit := loopBody_exit (vs ++ 0 :: top :: rest) top (addAll (VFPTRS.new MAXSIZE) vs) 0
    (8 * (vs.length : Int)) hr0 hr1 (by omega) (by omega)
  have hu : toULong (8 * (vs.length : Int) + 8) = 8 * (vs.length : Int) + 8 :=
    toULong_of_inRange _ (by omega) (by omega)
  have hins : inspectedOffsets (vs ++ [0, top] ++ rest) top id_offset (extra + 1 + vs.length)
      (entryState static_vftables)
      = (List.range vs.length).map (fun j : Nat => 8 * (j : Int))
        ++ [8 * (vs.length : Int), 8 * (vs.length : Int) + 8, id_offset + 8] := by
    rw [entryState_eq, himg', h4,
      inspectedOffsets_of_exit _ top id_offset extra
        ⟨addAll (VFPTRS.new MAXSIZE) vs, 0, 8 * (vs.length : Int)⟩ top _ hr0
        (by rw [hu]; exact hr1) hexit,
      hu]
  refine ⟨?_, filled_entries _, ?_, ?_, ?_, hins, ?_⟩
  · unfold get_VFTABLE
    rw [entryState_eq, himg', h1, loop_succ_exit _ _ _ _ _ hexit, addAll_new]
  · intro h5
    rw [filled_entries, List.take_of_length_le h5]
  · rw [entryState_eq, himg', h2,
      vptrOffsets_of_marker _ top extra ⟨addAll (VFPTRS.new MAXSIZE) vs, 0, 8 * (vs.length : Int)⟩ hr0,
      hexit]
    simp
  · rw [entryState_eq, himg', h3,
      sizeFieldOffsets_of_marker _ top extra
        ⟨addAll (VFPTRS.new MAXSIZE) vs, 0, 8 * (vs.length : Int)⟩ hr0,
      hexit, hu]
  · rw [hins, himg']
    rw [himg'] at htop
    rw [List.map_append, List.map_map]
    have hrun := read_run vs (0 :: top :: rest)
    simp only [List.map_cons, List.map_nil, hr0, hr1, htop]
    exact congrArg (· ++ [some 0, some top, some top]) hrun

/-- Witness of the amended C16: the two-base image scanned through a pointer
typed as the first base (its `id` at byte offset 8, top-level size 24) yields
exactly `[4096]`; the loads are at offsets 0, 8, 16 and again 16. -/
theorem walk_stops_at_first_top_marker_witness :
    [4096] ++ [0, 24] ++ [5000, 0, 24, 0, 64] = ([4096, 0, 24, 5000, 0, 24, 0, 64] : List Int)
      ∧ get_VFTABLE 2 (VFPTRS.new 10) ([4096] ++ [0, 24] ++ [5000, 0, 24, 0, 64]) 24
        = Outcome.returned (filled (([4096] : List Int).take 5))
      ∧ (filled (([4096] : List Int).take 5)).entries = ([4096] : List Int).take 5
      ∧ (([4096] : List Int).length ≤ 5 →
          (filled (([4096] : List Int).take 5)).entries = [4096])
      ∧ vptrOffsets ([4096] ++ [0, 24] ++ [5000, 0, 24, 0, 64]) 24 2
          (entryState (VFPTRS.new 10))
        = (List.range ([4096] : List Int).length).map (fun j : Nat => 8 * (j : Int))
      ∧ sizeFieldOffsets ([4096] ++ [0, 24] ++ [5000, 0, 24, 0, 64]) 24 2
          (entryState (VFPTRS.new 10))
        = [8 * ((([4096] : List Int).length : Nat) : Int) + 8]
      ∧ inspectedOffsets ([4096] ++ [0, 24] ++ [5000, 0, 24, 0, 64]) 24 8 2
          (entryState (VFPTRS.new 10))
        = (List.range ([4096] : List Int).length).map (fun j : Nat => 8 * (j : Int))
          ++ [8 * ((([4096] : List Int).length : Nat) : Int),
            8 * ((([4096] : List Int).length : Nat) : Int) + 8, 8 + 8]
      ∧ (inspectedOffsets ([4096] ++ [0, 24] ++ [5000, 0, 24, 0, 64]) 24 8 2
          (entryState (VFPTRS.new 10))).map (read ([4096] ++ [0, 24] ++ [5000, 0, 24, 0, 64]))
        = ([4096] : List Int).map some ++ [some 0, some 24, some 24] :=
  ⟨by decide,
    walk_stops_at_first_top_marker [4096] [5000, 0, 24, 0, 64] 8 24 (VFPTRS.new 10) 2
      (by decide) (by decide) (by decide) (by decide)⟩

end VTableInspector
